import Mathlib

/-!
Verification of the multi-game tactical pattern detection engine of the
chess-coach backend (src/backend/patterns.py).

The development shallowly embeds the pattern-detection core in Lean:

* the Board Position Oracle (spec section 4.1) is the interface of the external
  chess-rules library (python-chess).  It is modelled here concretely, following
  the query surface the spec requires of it: piece lookup, attack relations,
  pins, king lookup, legal moves and non-mutating move application, together
  with FEN parsing whose failure is a per-move skip.
* the four tactical motif detectors, the pattern aggregator, the phase
  statistics pass, the recommendation ranker and the facade entry point
  analyze_games are translated from the source, keeping the names of the source.

Python floats are modelled by exact rational numbers; the Python round and the
format specifiers are modelled by half-even decimal rounding on rationals.
Python dicts keyed by pattern name are modelled by insertion-ordered
association lists, and the stable sorts of Python by first-extremum selection sorts
(the output of a stable sort is uniquely determined, so any stable
implementation is extensionally the same function).
-/

set_option maxRecDepth 4000
set_option maxHeartbeats 4000000

namespace ChessCoach

/-- Chess side; python-chess chess.WHITE / chess.BLACK. -/
inductive Color where
  | white
  | black
deriving DecidableEq, Repr

/-- Opposite color; python-chess writes not color. -/
def Color.other : Color → Color
  | .white => .black
  | .black => .white

/-- Piece kinds of python-chess (PAWN, KNIGHT, BISHOP, ROOK, QUEEN, KING). -/
inductive PieceType where
  | pawn
  | knight
  | bishop
  | rook
  | queen
  | king
deriving DecidableEq, Repr

/-- Piece with its owning color, as python-chess chess.Piece. -/
structure Piece where
  pt : PieceType
  color : Color
deriving DecidableEq, Repr

/-- Squares are numbered 0..63, a1 = 0 .. h8 = 63, as in python-chess. -/
abbrev Square := Nat

/-- File index 0..7 of a square (chess.square_file). -/
def fileOf (sq : Square) : Nat := sq % 8

/-- Rank index 0..7 of a square (chess.square_rank). -/
def rankOf (sq : Square) : Nat := sq / 8

/-- Square from file and rank (chess.square). -/
def mkSq (file rank : Nat) : Square := rank * 8 + file

/-- Board: occupancy of the 64 squares plus side to move.  This is the state
the detectors read through the oracle queries below.  Castling rights,
en passant and move counters are not represented: no detector query in the
source depends on them for the moves the detectors inspect. -/
structure Board where
  squares : List (Option Piece)
  turn : Color
deriving DecidableEq, Repr

/-- Oracle query piece_at(square). -/
def pieceAt (b : Board) (sq : Square) : Option Piece := (b.squares.getD sq none)

/-- PIECE_VALUES table of the source: pawn 1, knight 3, bishop 3, rook 5,
queen 9, king 100.  The source reads it with .get(piece_type, 0) and the
table is total, so this is a total function. -/
def pieceValue : PieceType → ℚ
  | .pawn => 1
  | .knight => 3
  | .bishop => 3
  | .rook => 5
  | .queen => 9
  | .king => 100

/-- PIECE_NAMES table of the source. -/
def pieceName : PieceType → String
  | .pawn => "pawn"
  | .knight => "knight"
  | .bishop => "bishop"
  | .rook => "rook"
  | .queen => "queen"
  | .king => "king"

/-- Square name such as a1 (chess.square_name, the _sq helper of the source). -/
def squareName (sq : Square) : String :=
  let f := fileOf sq
  let r := rankOf sq
  String.mk [Char.ofNat (97 + f), Char.ofNat (49 + r)]

/-- Integer file difference from src to dst. -/
def fdiff (src dst : Square) : Int := (fileOf dst : Int) - (fileOf src : Int)

/-- Integer rank difference from src to dst. -/
def rdiff (src dst : Square) : Int := (rankOf dst : Int) - (rankOf src : Int)

/-- Knight-jump geometry between two squares. -/
def knightJump (src dst : Square) : Bool :=
  let fa := (fdiff src dst).natAbs
  let ra := (rdiff src dst).natAbs
  (fa = 1 && ra = 2) || (fa = 2 && ra = 1)

/-- King-step geometry between two squares. -/
def kingStep (src dst : Square) : Bool :=
  let fa := (fdiff src dst).natAbs
  let ra := (rdiff src dst).natAbs
  max fa ra = 1

/-- Pawn-capture geometry: one file aside, one rank forward for the color. -/
def pawnAttackStep (c : Color) (src dst : Square) : Bool :=
  let dr : Int := match c with | .white => 1 | .black => -1
  (fdiff src dst).natAbs = 1 && rdiff src dst = dr

/-- Two distinct squares on one diagonal. -/
def sameDiag (src dst : Square) : Bool :=
  let fd := fdiff src dst
  let rd := rdiff src dst
  fd.natAbs = rd.natAbs && fd ≠ 0

/-- Two distinct squares on one rank or one file. -/
def sameStraight (src dst : Square) : Bool :=
  let fd := fdiff src dst
  let rd := rdiff src dst
  (fd = 0 && rd ≠ 0) || (rd = 0 && fd ≠ 0)

/-- Squares strictly between two aligned squares, walked in unit steps. -/
def betweenSquares (src dst : Square) : List Square :=
  let fd := fdiff src dst
  let rd := rdiff src dst
  let n := max fd.natAbs rd.natAbs
  let sf := fd.sign
  let sr := rd.sign
  (List.range (n - 1)).map (fun i =>
    mkSq ((fileOf src : Int) + (i + 1) * sf).toNat ((rankOf src : Int) + (i + 1) * sr).toNat)

/-- Emptiness of the path strictly between two aligned squares. -/
def pathClear (b : Board) (src dst : Square) : Bool :=
  (betweenSquares src dst).all (fun s => (pieceAt b s).isNone)

/-- Attack relation: the piece standing on src attacks dst.  This realises the
attack queries of the oracle with the standard piece geometry (sliders are blocked
by intervening pieces; pawn attacks are the two forward diagonals). -/
def attacksSquare (b : Board) (src dst : Square) : Bool :=
  if src = dst then false else
  match pieceAt b src with
  | none => false
  | some p =>
    match p.pt with
    | .knight => knightJump src dst
    | .king => kingStep src dst
    | .pawn => pawnAttackStep p.color src dst
    | .bishop => sameDiag src dst && pathClear b src dst
    | .rook => sameStraight src dst && pathClear b src dst
    | .queen => (sameDiag src dst || sameStraight src dst) && pathClear b src dst

/-- Oracle query attackers(color, square): squares of color pieces attacking
the given square, in ascending square order as python-chess SquareSet iterates. -/
def attackers (b : Board) (c : Color) (sq : Square) : List Square :=
  (List.range 64).filter (fun a =>
    (match pieceAt b a with
     | some p => decide (p.color = c)
     | none => false) && attacksSquare b a sq)

/-- Oracle query is_attacked_by(color, square). -/
def isAttackedBy (b : Board) (c : Color) (sq : Square) : Bool :=
  !(attackers b c sq).isEmpty

/-- Attack set board.attacks(square): squares attacked by the piece on square,
ascending as a SquareSet. -/
def attacksFrom (b : Board) (sq : Square) : List Square :=
  (List.range 64).filter (fun t => attacksSquare b sq t)

/-- Oracle query king(color): square of the king of the color, if present. -/
def kingSquare (b : Board) (c : Color) : Option Square :=
  (List.range 64).find? (fun s => pieceAt b s = some ⟨.king, c⟩)

/-- Oracle query pieces(piece_type, color), ascending as a SquareSet. -/
def piecesOf (b : Board) (pt : PieceType) (c : Color) : List Square :=
  (List.range 64).filter (fun s => pieceAt b s = some ⟨pt, c⟩)

/-- Slider alignment: could a piece of this kind attack along the line from s
to k on an empty board (pins are delivered by sliders only). -/
def sliderAligned (pt : PieceType) (s k : Square) : Bool :=
  match pt with
  | .bishop => sameDiag s k
  | .rook => sameStraight s k
  | .queen => sameDiag s k || sameStraight s k
  | _ => false

/-- One enemy sniper on square s absolutely pins the piece on sq against the
king on k: the sniper is an aligned slider and sq is the only occupied square
strictly between the sniper and the king. -/
def sniperPins (b : Board) (c : Color) (sq k s : Square) : Bool :=
  (match pieceAt b s with
   | some p => decide (p.color = c.other) && sliderAligned p.pt s k
   | none => false) &&
  decide (sq ∈ betweenSquares s k) &&
  (betweenSquares s k).all (fun t => decide (t = sq) || (pieceAt b t).isNone)

/-- Oracle query is_pinned(color, square). -/
def isPinned (b : Board) (c : Color) (sq : Square) : Bool :=
  match kingSquare b c with
  | none => false
  | some k => (List.range 64).any (fun s => sniperPins b c sq k s)

/-- Membership of t on the full line through k and s (python-chess ray). -/
def onRay (k s t : Square) : Bool :=
  let df := fdiff k s
  let dr := rdiff k s
  let sf := df.sign
  let sr := dr.sign
  let i1 := fdiff k t
  let i2 := rdiff k t
  if sf = 0 && sr = 0 then false
  else (i1 * sr = i2 * sf) && (if sf = 0 then i1 = 0 else true) &&
       (if sr = 0 then i2 = 0 else true)

/-- Oracle query pin(color, square): the ray through the king and the pinning
sniper, as a list of squares; all squares when no sniper is found
(python-chess returns BB_ALL in that case).  Only the pinner-name lookup of
the pin detector reads this, and only when is_pinned already holds. -/
def pinRaySquares (b : Board) (c : Color) (sq k : Square) : List Square :=
  match (List.range 64).find? (fun s => sniperPins b c sq k s) with
  | some s => (List.range 64).filter (fun t => onRay k s t)
  | none => List.range 64

/-- Move from a source square to a destination square. -/
structure Move where
  src : Square
  dst : Square
deriving DecidableEq, Repr

/-- Pseudo-legal destination squares of the piece p standing on sq: attack
squares not occupied by an own piece, plus the pawn pushes.  Castling,
en passant and promotion variants are not generated: the detectors only ever
select knight moves out of the legal-move list, and no knight move has such a
variant. -/
def pieceTargets (b : Board) (sq : Square) (p : Piece) : List Square :=
  match p.pt with
  | .pawn =>
    let dr : Int := match p.color with | .white => 1 | .black => -1
    let startRank : Nat := match p.color with | .white => 1 | .black => 6
    let one := mkSq (fileOf sq) ((rankOf sq : Int) + dr).toNat
    let two := mkSq (fileOf sq) ((rankOf sq : Int) + 2 * dr).toNat
    let pushes :=
      if ((rankOf sq : Int) + dr < 8 ∧ 0 ≤ (rankOf sq : Int) + dr) ∧ pieceAt b one = none then
        if rankOf sq = startRank ∧ pieceAt b two = none then [one, two] else [one]
      else []
    let caps := (attacksFrom b sq).filter (fun t =>
      match pieceAt b t with
      | some q => decide (q.color ≠ p.color)
      | none => false)
    pushes ++ caps
  | _ =>
    (attacksFrom b sq).filter (fun t =>
      match pieceAt b t with
      | some q => decide (q.color ≠ p.color)
      | none => true)

/-- Oracle move application apply(move): a new board value with the piece
relocated (capturing whatever stood on the destination) and the turn flipped;
the argument board is untouched, matching board.copy() followed by push. -/
def pushMove (b : Board) (m : Move) : Board :=
  { squares := (b.squares.set m.dst (pieceAt b m.src)).set m.src none
    turn := b.turn.other }

/-- Pseudo-legal moves of the side to move. -/
def pseudoLegalMoves (b : Board) : List Move :=
  (List.range 64).flatMap (fun sq =>
    match pieceAt b sq with
    | some p =>
      if p.color = b.turn then (pieceTargets b sq p).map (fun t => ⟨sq, t⟩) else []
    | none => [])

/-- Oracle query legal_moves: pseudo-legal moves after which the own
king is not attacked (this covers both pins and check evasions); with no own
king on the board every pseudo-legal move is legal, as in python-chess. -/
def legalMoves (b : Board) : List Move :=
  (pseudoLegalMoves b).filter (fun m =>
    let b2 := pushMove b m
    match kingSquare b2 b.turn with
    | none => true
    | some k => !(isAttackedBy b2 b.turn.other k))

/-- First element attaining the maximal key, as selected by the Python built-in
max and by reading the head of a stable descending sort. -/
def firstMaxBy {α : Type} {β : Type} [LinearOrder β] (key : α → β) : List α → Option α
  | [] => none
  | x :: xs =>
    match firstMaxBy key xs with
    | none => some x
    | some m => if key x < key m then some m else some x

/-- First element attaining the minimal key, as selected by the Python built-in
min and by reading the head of a stable ascending sort. -/
def firstMinBy {α : Type} {β : Type} [LinearOrder β] (key : α → β) : List α → Option α
  | [] => none
  | x :: xs =>
    match firstMinBy key xs with
    | none => some x
    | some m => if key m < key x then some m else some x

/-- Python str.capitalize restricted to what the source feeds it: upper-case
the first character. -/
def capitalizeStr (s : String) : String :=
  match s.data with
  | [] => ""
  | c :: rest => String.mk (c.toUpper :: rest)

/-- FEN piece letter to piece, as python-chess Piece.from_symbol. -/
def charToPiece (c : Char) : Option Piece :=
  if c = 'P' then some ⟨.pawn, .white⟩
  else if c = 'N' then some ⟨.knight, .white⟩
  else if c = 'B' then some ⟨.bishop, .white⟩
  else if c = 'R' then some ⟨.rook, .white⟩
  else if c = 'Q' then some ⟨.queen, .white⟩
  else if c = 'K' then some ⟨.king, .white⟩
  else if c = 'p' then some ⟨.pawn, .black⟩
  else if c = 'n' then some ⟨.knight, .black⟩
  else if c = 'b' then some ⟨.bishop, .black⟩
  else if c = 'r' then some ⟨.rook, .black⟩
  else if c = 'q' then some ⟨.queen, .black⟩
  else if c = 'k' then some ⟨.king, .black⟩
  else none

/-- Parse one FEN rank: digits expand to empty squares, letters to pieces;
fails on any other character. -/
def parseRankChars : List Char → Option (List (Option Piece))
  | [] => some []
  | c :: rest =>
    match parseRankChars rest with
    | none => none
    | some tail =>
      if '1' ≤ c ∧ c ≤ '8' then
        some (List.replicate (c.toNat - 48) none ++ tail)
      else
        match charToPiece c with
        | some p => some (some p :: tail)
        | none => none

/-- Parse one FEN rank, additionally checking that it covers exactly 8 files
(python-chess rejects rank fields of the wrong width). -/
def parseRank (s : List Char) : Option (List (Option Piece)) :=
  match parseRankChars s with
  | some cells => if cells.length = 8 then some cells else none
  | none => none

/-- Split a character list at a separator character, keeping empty groups
(str.split(sep) of Python). -/
def splitOnChar (sep : Char) : List Char → List (List Char)
  | [] => [[]]
  | c :: rest =>
    let r := splitOnChar sep rest
    if c = sep then [] :: r
    else
      match r with
      | [] => [[c]]
      | g :: gs => (c :: g) :: gs

/-- Sequence of optional parses. -/
def sequenceOpt : List (Option (List (Option Piece))) → Option (List (List (Option Piece)))
  | [] => some []
  | o :: rest =>
    match o, sequenceOpt rest with
    | some x, some xs => some (x :: xs)
    | _, _ => none

/-- Oracle constructor chess.Board(fen): parses the piece-placement field
(8 ranks, given from rank 8 down to rank 1) and the side to move; any
malformation is the PositionError the aggregator recovers from, rendered here
as none.  The remaining FEN fields do not influence any detector query used
by the source and are accepted unchecked. -/
def parseFEN (fen : String) : Option Board :=
  match (splitOnChar ' ' fen.data).filter (fun s => s ≠ []) with
  | [] => none
  | placement :: rest =>
    let rankFields := splitOnChar '/' placement
    if rankFields.length = 8 then
      match sequenceOpt (rankFields.map parseRank) with
      | none => none
      | some ranks =>
        let turn : Option Color :=
          match rest with
          | [] => some .white
          | t :: _ =>
            if t = ['w'] then some .white else if t = ['b'] then some .black else none
        match turn with
        | none => none
        | some tc => some { squares := ranks.reverse.flatten, turn := tc }
    else none

/-!  The four tactical motif detectors (source lines 64-208).  Each takes the
post-blunder board and a color and returns an optional (description, material
value) pair, exactly as in the source. -/

/-- Detector detect_hanging_pieces: victim pieces (never the king) attacked by
the opponent and defended by nobody; the highest-value one is reported, ties
resolved to the lowest square since the stable Python sort keeps the a1..h8 scan
order among equal values. -/
def detect_hanging_pieces (board : Board) (victim_color : Color) : Option (String × ℚ) :=
  let attacker_color := victim_color.other
  let hanging : List (Square × Piece × ℚ) :=
    (List.range 64).filterMap (fun square =>
      match pieceAt board square with
      | none => none
      | some piece =>
        if piece.color ≠ victim_color ∨ piece.pt = .king then none
        else if !(attackers board attacker_color square).isEmpty ∧
                (attackers board victim_color square).isEmpty then
          some (square, piece, pieceValue piece.pt)
        else none)
  match firstMaxBy (fun x => x.2.2) hanging with
  | none => none
  | some (sq, piece, value) =>
    some (capitalizeStr (pieceName piece.pt) ++ " on " ++ squareName sq ++ " left undefended",
          value)

/-- Valuable target kinds of the knight-fork detector. -/
def valuableTypes : List PieceType := [.king, .queen, .rook, .bishop]

/-- Victim pieces a knight standing on sq attacks, restricted to the valuable
kinds, in ascending square order (the attacked list of the fork detector). -/
def forkTargets (b : Board) (victim_color : Color) (sq : Square) : List (Square × Piece) :=
  (attacksFrom b sq).filterMap (fun target_sq =>
    match pieceAt b target_sq with
    | some target =>
      if target.color = victim_color ∧ target.pt ∈ valuableTypes then
        some (target_sq, target)
      else none
    | none => none)

/-- Total material of the targets of a fork. -/
def forkTotal (ts : List (Square × Piece)) : ℚ :=
  (ts.map (fun x => pieceValue x.2.pt)).sum

/-- Minimum material among the targets of a fork (Python min over a nonempty
generator; 0 for the empty list, which the detector never queries). -/
def forkMin (ts : List (Square × Piece)) : ℚ :=
  match ts.map (fun x => pieceValue x.2.pt) with
  | [] => 0
  | v :: vs => vs.foldl min v

/-- Inner helper _check_fork_from of detect_knight_fork. -/
def checkForkFrom (b : Board) (victim_color : Color) (sq : Square) :
    Option (String × ℚ) × ℚ :=
  let attacked := forkTargets b victim_color sq
  if 2 ≤ attacked.length then
    let total := forkTotal attacked
    let at_risk := forkMin attacked
    let pieces_desc := String.intercalate " and " (attacked.map (fun x => pieceName x.2.pt))
    (some ("Knight on " ++ squareName sq ++ " forks " ++ pieces_desc, at_risk), total)
  else (none, 0)

/-- Fork candidates: every existing exploiter knight on the given board, then
every destination of a legal exploiter knight move together with the board
obtained by playing it on an independent copy (source lines 114-131). -/
def forkCandidates (board : Board) (exploiter_color : Color) : List (Square × Board) :=
  (piecesOf board .knight exploiter_color).map (fun s => (s, board)) ++
  (legalMoves board).filterMap (fun move =>
    match pieceAt board move.src with
    | some piece =>
      if piece.pt = .knight ∧ piece.color = exploiter_color then
        some (move.dst, pushMove board move)
      else none
    | none => none)

/-- Selection loop of detect_knight_fork: keep the first candidate whose fork
total strictly exceeds every earlier one (best_total_value starts at 0). -/
def forkFold (cands : List (Option (String × ℚ) × ℚ)) : Option (String × ℚ) × ℚ :=
  cands.foldl
    (fun best c => if c.1.isSome ∧ best.2 < c.2 then c else best)
    (none, 0)

/-- Detector detect_knight_fork. -/
def detect_knight_fork (board : Board) (exploiter_color : Color) : Option (String × ℚ) :=
  let victim_color := exploiter_color.other
  (forkFold ((forkCandidates board exploiter_color).map
    (fun c => checkForkFrom c.2 victim_color c.1))).1

/-- Pinner-name lookup of detect_pin (source lines 160-170): the first square
on the pin ray, king and pinned square excluded, holding an enemy piece. -/
def pinnerName (board : Board) (victim_color : Color) (square king_sq : Square) : String :=
  match (List.range 64).find? (fun candidate =>
    decide (candidate ≠ square) && decide (candidate ≠ king_sq) &&
    decide (candidate ∈ pinRaySquares board victim_color square king_sq) &&
    (match pieceAt board candidate with
     | some cp => decide (cp.color ≠ victim_color)
     | none => false)) with
  | some candidate =>
    match pieceAt board candidate with
    | some cp => pieceName cp.pt
    | none => "piece"
  | none => "piece"

/-- Detector detect_pin: scan squares a1..h8, keeping the strictly
highest-value pinned victim piece seen so far, exactly as the loop of the source. -/
def detect_pin (board : Board) (victim_color : Color) : Option (String × ℚ) :=
  match kingSquare board victim_color with
  | none => none
  | some king_sq =>
    ((List.range 64).foldl
      (fun (best : Option (String × ℚ) × ℚ) square =>
        match pieceAt board square with
        | none => best
        | some piece =>
          if piece.color ≠ victim_color ∨ piece.pt = .king then best
          else if !(isPinned board victim_color square) then best
          else
            let value := pieceValue piece.pt
            if value ≤ best.2 then best
            else
              (some (capitalizeStr (pieceName piece.pt) ++ " on " ++ squareName square ++
                     " pinned to king by " ++ pinnerName board victim_color square king_sq,
                     value),
               value))
      (none, 0)).1

/-- Detector detect_back_rank: the victim king sits on its back rank, every
escape square one rank forward is blocked by an own piece or is attacked, and
the attacker retains a rook or queen. -/
def detect_back_rank (board : Board) (victim_color : Color) : Option (String × ℚ) :=
  match kingSquare board victim_color with
  | none => none
  | some king_sq =>
    let back_rank : Nat := match victim_color with | .white => 0 | .black => 7
    if rankOf king_sq ≠ back_rank then none
    else
      let forward_rank : Nat := match victim_color with | .white => 1 | .black => 6
      let king_file := fileOf king_sq
      let attacker_color := victim_color.other
      let files := (List.range 8).filter (fun f =>
        decide (king_file - 1 ≤ f) && decide (f < min 8 (king_file + 2)))
      let escapeExists := files.any (fun f =>
        let escape_sq := mkSq f forward_rank
        match pieceAt board escape_sq with
        | none => !(isAttackedBy board attacker_color escape_sq)
        | some occupant =>
          if occupant.color ≠ victim_color then
            !(isAttackedBy board attacker_color escape_sq)
          else false)
      if escapeExists then none
      else if !(piecesOf board .rook attacker_color).isEmpty ∨
              !(piecesOf board .queen attacker_color).isEmpty then
        some ("Back rank weakness - king trapped by own pawns", 100)
      else none

/-!  Enumerations, numeric helpers and the analysed-game data model
(source lines 13-53 and the dict shapes consumed by PatternDetector). -/

/-- Enumeration TacticalPattern of the source, all six declared members. -/
inductive TacticalPattern where
  | hanging_piece
  | knight_fork
  | pin
  | back_rank
  | discovered_attack
  | skewer
deriving DecidableEq, Repr

/-- String value of a TacticalPattern member. -/
def TacticalPattern.value : TacticalPattern → String
  | .hanging_piece => "hanging_piece"
  | .knight_fork => "knight_fork"
  | .pin => "pin"
  | .back_rank => "back_rank"
  | .discovered_attack => "discovered_attack"
  | .skewer => "skewer"

/-- Enumeration GamePhase of the source. -/
inductive GamePhase where
  | opening
  | middlegame
  | endgame
deriving DecidableEq, Repr

/-- String value of a GamePhase member. -/
def GamePhase.value : GamePhase → String
  | .opening => "opening"
  | .middlegame => "middlegame"
  | .endgame => "endgame"

/-- Phase bucketing _get_phase of the source. -/
def get_phase (move_number : ℤ) : GamePhase :=
  if move_number ≤ 15 then .opening
  else if move_number ≤ 40 then .middlegame
  else .endgame

/-- Python round() to an integer: half-even rounding, on the exact rational
modelling the float. -/
def pyRound (q : ℚ) : ℤ :=
  let f := ⌊q⌋
  let r := q - f
  if r < 1 / 2 then f
  else if 1 / 2 < r then f + 1
  else if f % 2 = 0 then f else f + 1

/-- Python round(x, 1). -/
def round1 (q : ℚ) : ℚ := (pyRound (q * 10) : ℚ) / 10

/-- Python format specifier :.1f for the nonnegative quantities the ranker
formats. -/
def fmt1 (q : ℚ) : String :=
  let n := pyRound (q * 10)
  toString (n / 10) ++ "." ++ toString (n % 10)

/-- Python format specifier :.0f for the nonnegative quantities the ranker
formats. -/
def fmt0 (q : ℚ) : String := toString (pyRound q)

/-- Plural suffix helper for the f-strings of the ranker. -/
def pluralS (n : Nat) : String := if n ≠ 1 then "s" else ""

/-- Underscore-to-space rewriting of a pattern name. -/
def underscoresToSpaces (s : String) : String :=
  String.mk (s.data.map (fun c => if c = '_' then ' ' else c))

/-- MoveRecord: one analysed move as handed to the aggregator.  Every field the
source reads through dict .get is optional here, a missing key being none. -/
structure MoveRecord where
  move_number : Option ℤ
  color : Option String
  fen_after : Option String
  eval_change : Option ℚ
  classification : Option String
deriving DecidableEq, Repr

/-- Per-side accuracy summary of an analysed game. -/
structure GameSummary where
  white_accuracy : Option ℚ
  black_accuracy : Option ℚ
deriving DecidableEq, Repr

/-- AnalyzedGame: moves plus summary, both optional dict entries. -/
structure AnalyzedGame where
  moves : Option (List MoveRecord)
  summary : Option GameSummary
deriving DecidableEq, Repr

/-- Finding: one detected pattern instance (source lines 297-304). -/
structure Finding where
  game_index : Nat
  move_number : ℤ
  pattern : String
  lost_material : ℚ
  fen : String
  description : String
deriving DecidableEq, Repr

/-- PhaseStat: one per-phase statistics record (source lines 352-358). -/
structure PhaseStat where
  phase : String
  avg_accuracy : ℚ
  blunder_count : Nat
  mistake_count : Nat
  move_count : Nat
deriving DecidableEq, Repr

/-- PatternSummary: the aggregate output of analyze_games.  The two Python
dicts keyed by pattern and by phase are insertion-ordered association lists. -/
structure PatternSummary where
  total_games : Nat
  tactical_patterns : List (String × List Finding)
  phase_stats : List (String × PhaseStat)
  overall_accuracy : ℚ
  recommendations : List String
deriving DecidableEq, Repr

/-- Numeric value of eval_change after the .get of the source("eval_change", 0)
followed by or 0 (a missing or falsy value collapses to 0). -/
def evalChangeVal (m : MoveRecord) : ℚ :=
  match m.eval_change with
  | none => 0
  | some v => v

/-- Centipawn-loss sample of a move: max(0, -eval_change * 100). -/
def cpLoss (m : MoveRecord) : ℚ := max 0 (-(evalChangeVal m) * 100)

/-- Color-attribution skip: with a truthy user color a move of any other color
is skipped; with no attribution nothing is skipped. -/
def colorSkip (user_color : Option String) (m : MoveRecord) : Bool :=
  match user_color with
  | none => false
  | some s => if s = "" then false else decide (m.color ≠ some s)

/-- Victim color of a scanned move: .get("color", "white"), white exactly on
the string "white", black otherwise. -/
def victimColorOf (m : MoveRecord) : Color :=
  if m.color.getD "white" = "white" then .white else .black

/-- Detector dispatch table TACTICAL_DETECTORS, in priority of the source, namely the
order: every entry takes the board, the victim color and the exploiter color. -/
def TACTICAL_DETECTORS : List (String × (Board → Color → Color → Option (String × ℚ))) :=
  [("hanging_piece", fun b vc _ => detect_hanging_pieces b vc),
   ("knight_fork", fun b _ ec => detect_knight_fork b ec),
   ("pin", fun b vc _ => detect_pin b vc),
   ("back_rank", fun b vc _ => detect_back_rank b vc)]

/-- Inner detector loop: the first table entry that returns a finding wins and
the loop breaks (source lines 290-305). -/
def firstHitAux (b : Board) (vc ec : Color) :
    List (String × (Board → Color → Color → Option (String × ℚ))) →
    Option (String × String × ℚ)
  | [] => none
  | (key, fn) :: rest =>
    match fn b vc ec with
    | some (desc, mat) => some (key, desc, mat)
    | none => firstHitAux b vc ec rest

/-- First detector hit for a scanned board. -/
def firstDetectorHit (b : Board) (vc ec : Color) : Option (String × String × ℚ) :=
  firstHitAux b vc ec TACTICAL_DETECTORS

/-- Scan of a single move of game game_idx (the body of the inner loop of
_detect_tactical_patterns): skips non-blunders, attributed opponent moves,
missing or empty FENs and unparseable FENs, then records the first detector
hit as a Finding. -/
def scanMove (game_idx : Nat) (user_color : Option String) (m : MoveRecord) :
    Option (String × Finding) :=
  if m.classification = some "blunder" ∨ m.classification = some "mistake" then
    if colorSkip user_color m then none
    else
      match m.fen_after with
      | none => none
      | some fen =>
        if fen = "" then none
        else
          match parseFEN fen with
          | none => none
          | some board =>
            let victim_color := victimColorOf m
            let exploiter_color := victim_color.other
            let move_number := m.move_number.getD 0
            let lost_material := round1 |evalChangeVal m|
            match firstDetectorHit board victim_color exploiter_color with
            | none => none
            | some (key, desc, mat_value) =>
              some (key,
                { game_index := game_idx
                  move_number := move_number
                  pattern := key
                  lost_material := if 0 < lost_material then lost_material else mat_value
                  fen := fen
                  description := desc })
  else none

/-- Findings of one game, in move scan order. -/
def scanGame (game_idx : Nat) (user_color : Option String) (g : AnalyzedGame) :
    List (String × Finding) :=
  (g.moves.getD []).filterMap (scanMove game_idx user_color)

/-- Indexed per-game traversal with the player_colors[game_idx] of the source
access: an index beyond the attribution list raises, modelled as an error. -/
def perGameE {α : Type} (f : Nat → Option String → AnalyzedGame → α) :
    Nat → List AnalyzedGame → List (Option String) → Except String (List α)
  | _, [], _ => .ok []
  | i, g :: rest, cols =>
    match cols[i]? with
    | none => .error "IndexError: list index out of range"
    | some uc =>
      match perGameE f (i + 1) rest cols with
      | .ok l => .ok (f i uc g :: l)
      | .error e => .error e

/-- Total per-game traversal used to state what the successful traversal
computes. -/
def perGame {α : Type} (f : Nat → Option String → AnalyzedGame → α) :
    Nat → List AnalyzedGame → List (Option String) → List α
  | _, [], _ => []
  | i, g :: rest, cols => f i (cols.getD i none) g :: perGame f (i + 1) rest cols

/-- Dict append patterns[key].append(finding), creating the key at the back on
first use (Python dict insertion order). -/
def addFinding (pats : List (String × List Finding)) (key : String) (f : Finding) :
    List (String × List Finding) :=
  if pats.any (fun p => p.1 = key) then
    pats.map (fun p => if p.1 = key then (p.1, p.2 ++ [f]) else p)
  else pats ++ [(key, [f])]

/-- Bucketing of a flat finding list into the pattern dict. -/
def bucketize (flat : List (String × Finding)) : List (String × List Finding) :=
  flat.foldl (fun acc kf => addFinding acc kf.1 kf.2) []

/-- Aggregator pass _detect_tactical_patterns. -/
def detect_tactical_patterns (games : List AnalyzedGame) (cols : List (Option String)) :
    Except String (List (String × List Finding)) :=
  match perGameE scanGame 0 games cols with
  | .error e => .error e
  | .ok per => .ok (bucketize per.flatten)

/-- Running totals of one phase bucket. -/
structure PhaseData where
  cp_losses : List ℚ
  blunders : Nat
  mistakes : Nat
  moves : Nat
deriving DecidableEq, Repr

/-- Empty phase bucket. -/
def PhaseData.empty : PhaseData := ⟨[], 0, 0, 0⟩

/-- The three phase buckets, keyed opening / middlegame / endgame in the
enumeration order the dict comprehension of the source inserts them. -/
structure PhaseTotals where
  opening : PhaseData
  middlegame : PhaseData
  endgame : PhaseData
deriving DecidableEq, Repr

/-- Initial phase totals. -/
def initTotals : PhaseTotals := ⟨.empty, .empty, .empty⟩

/-- Accumulation of one counted move into its bucket (source lines 325-339). -/
def pdAdd (pd : PhaseData) (m : MoveRecord) : PhaseData :=
  { cp_losses := pd.cp_losses ++ [cpLoss m]
    blunders := pd.blunders + (if m.classification = some "blunder" then 1 else 0)
    mistakes := pd.mistakes + (if m.classification = some "mistake" then 1 else 0)
    moves := pd.moves + 1 }

/-- Dispatch of a counted move to the bucket of its phase. -/
def phaseStep (t : PhaseTotals) (m : MoveRecord) : PhaseTotals :=
  match get_phase (m.move_number.getD 0) with
  | .opening => { t with opening := pdAdd t.opening m }
  | .middlegame => { t with middlegame := pdAdd t.middlegame m }
  | .endgame => { t with endgame := pdAdd t.endgame m }

/-- Moves of a game surviving the color-attribution skip (the continue at the
top of the phase loop). -/
def countedMoves (user_color : Option String) (g : AnalyzedGame) : List MoveRecord :=
  (g.moves.getD []).filter (fun m => !(colorSkip user_color m))

/-- Result record of one phase bucket (source lines 345-358). -/
def mkPhaseStat (key : String) (d : PhaseData) : PhaseStat :=
  let accuracy : ℚ :=
    if d.cp_losses ≠ [] then
      max 0 (min 100 (100 - (d.cp_losses.sum / (d.cp_losses.length : ℚ)) / 2))
    else 100
  { phase := key
    avg_accuracy := round1 accuracy
    blunder_count := d.blunders
    mistake_count := d.mistakes
    move_count := d.moves }

/-- Result dict of the phase pass: buckets with zero moves are omitted. -/
def phaseResult (t : PhaseTotals) : List (String × PhaseStat) :=
  (if t.opening.moves = 0 then [] else [("opening", mkPhaseStat "opening" t.opening)]) ++
  (if t.middlegame.moves = 0 then []
   else [("middlegame", mkPhaseStat "middlegame" t.middlegame)]) ++
  (if t.endgame.moves = 0 then [] else [("endgame", mkPhaseStat "endgame" t.endgame)])

/-- Aggregator pass _analyze_phase_performance. -/
def analyze_phase_performance (games : List AnalyzedGame) (cols : List (Option String)) :
    Except String (List (String × PhaseStat)) :=
  match perGameE (fun _ uc g => countedMoves uc g) 0 games cols with
  | .error e => .error e
  | .ok per => .ok (phaseResult (per.flatten.foldl phaseStep initTotals))

/-!  Recommendation ranker _generate_recommendations (source lines 362-425).
Python sorted is stable; the output of a stable sort is uniquely determined by
the key, so it is modelled by a first-extremum selection sort, which is
stable. -/

/-- Extraction of the first element with maximal key together with the rest of
the list in original order. -/
def extractFirstMax {α : Type} {β : Type} [LinearOrder β] (key : α → β) :
    List α → Option (α × List α)
  | [] => none
  | x :: xs =>
    match extractFirstMax key xs with
    | none => some (x, [])
    | some (m, rest) => if key x < key m then some (m, x :: rest) else some (x, xs)

/-- Extraction of the first element with minimal key together with the rest of
the list in original order. -/
def extractFirstMin {α : Type} {β : Type} [LinearOrder β] (key : α → β) :
    List α → Option (α × List α)
  | [] => none
  | x :: xs =>
    match extractFirstMin key xs with
    | none => some (x, [])
    | some (m, rest) => if key m < key x then some (m, x :: rest) else some (x, xs)

/-- Fuelled stable descending selection sort. -/
def selectSortDescAux {α : Type} {β : Type} [LinearOrder β] (key : α → β) :
    Nat → List α → List α
  | 0, _ => []
  | n + 1, l =>
    match extractFirstMax key l with
    | none => []
    | some (m, rest) => m :: selectSortDescAux key n rest

/-- Stable descending sort by key: Python sorted(..., key=..., reverse=True). -/
def selectSortDescBy {α : Type} {β : Type} [LinearOrder β] (key : α → β) (l : List α) :
    List α :=
  selectSortDescAux key l.length l

/-- Fuelled stable ascending selection sort. -/
def selectSortAscAux {α : Type} {β : Type} [LinearOrder β] (key : α → β) :
    Nat → List α → List α
  | 0, _ => []
  | n + 1, l =>
    match extractFirstMin key l with
    | none => []
    | some (m, rest) => m :: selectSortAscAux key n rest

/-- Stable ascending sort by key: Python sorted(..., key=...). -/
def selectSortAscBy {α : Type} {β : Type} [LinearOrder β] (key : α → β) (l : List α) :
    List α :=
  selectSortAscAux key l.length l

/-- Distinct game count of a finding list: len(set(game_index)). -/
def distinctGameCount (instances : List Finding) : Nat :=
  (instances.map (fun i => i.game_index)).dedup.length

/-- Average lost material of a finding list. -/
def avgLostMaterial (instances : List Finding) : ℚ :=
  (instances.map (fun i => i.lost_material)).sum / (instances.length : ℚ)

/-- Recommendation string of ranking step 1. -/
def mkRec1 (name : String) (instances : List Finding) : String :=
  let readable := underscoresToSpaces name
  let game_count := distinctGameCount instances
  let avg_loss := avgLostMaterial instances
  "You\x27re losing material to " ++ readable ++ "s (" ++ toString game_count ++
    " game" ++ pluralS game_count ++ ", avg " ++ fmt1 avg_loss ++
    " pawns lost). Practice recognizing " ++ readable ++ " patterns."

/-- Recommendation string of ranking step 2. -/
def mkRec2 (weakest strongest : String × PhaseStat) : String :=
  "Your " ++ weakest.1 ++ " accuracy is low (" ++ fmt0 weakest.2.avg_accuracy ++
    "% vs " ++ fmt0 strongest.2.avg_accuracy ++ "% in " ++ strongest.1 ++
    "). Focus on " ++ weakest.1 ++ " technique."

/-- Recommendation string of ranking step 3. -/
def mkRec3 (name : String) (instances : List Finding) : String :=
  let game_count := distinctGameCount instances
  "Practice recognizing " ++ underscoresToSpaces name ++ "s (" ++
    toString game_count ++ " game" ++ pluralS game_count ++ ")."

/-- Fallback recommendation string for a blunder-heavy phase. -/
def mkFallbackRec (key : String) (st : PhaseStat) : String :=
  "You had " ++ toString st.blunder_count ++ " blunder" ++ pluralS st.blunder_count ++
    " in the " ++ key ++ ". Review these critical moments."

/-- Ranking step 1: most frequent pattern if it has at least 2 findings. -/
def rec1List (sorted_patterns : List (String × List Finding)) : List String :=
  match sorted_patterns with
  | (name, instances) :: _ => if 2 ≤ instances.length then [mkRec1 name instances] else []
  | [] => []

/-- Ranking step 2: weakest versus strongest phase. -/
def rec2List (phases : List (String × PhaseStat)) : List String :=
  if 2 ≤ phases.length then
    match firstMinBy (fun p => p.2.avg_accuracy) phases,
          firstMaxBy (fun p => p.2.avg_accuracy) phases with
    | some weakest, some strongest =>
      let gap := strongest.2.avg_accuracy - weakest.2.avg_accuracy
      if 5 < gap ∨ 2 ≤ weakest.2.blunder_count then [mkRec2 weakest strongest] else []
    | _, _ => []
  else []

/-- Ranking step 3: second most frequent pattern with at least one finding. -/
def rec3List (sorted_patterns : List (String × List Finding)) : List String :=
  match sorted_patterns with
  | _ :: (name, instances) :: _ => if 1 ≤ instances.length then [mkRec3 name instances] else []
  | _ => []

/-- Fallback loop over phases sorted by ascending accuracy, stopping at 3
recommendations. -/
def fallbackLoop : List (String × PhaseStat) → List String → List String
  | [], recs => recs
  | (key, st) :: rest, recs =>
    let recs2 := if 0 < st.blunder_count then recs ++ [mkFallbackRec key st] else recs
    if 3 ≤ recs2.length then recs2 else fallbackLoop rest recs2

/-- Ranker _generate_recommendations: the four ranking steps, the generic
fallback, and the final truncation to 3. -/
def generate_recommendations (patterns : List (String × List Finding))
    (phases : List (String × PhaseStat)) : List String :=
  let sorted_patterns := selectSortDescBy (fun p => p.2.length) patterns
  let recs := rec1List sorted_patterns ++ rec2List phases ++ rec3List sorted_patterns
  let recs2 :=
    if recs = [] ∧ phases ≠ [] then
      fallbackLoop (selectSortAscBy (fun p => p.2.avg_accuracy) phases) []
    else recs
  let recs3 :=
    if recs2 = [] then
      ["Keep playing and analyzing more games to build a clearer pattern profile."]
    else recs2
  recs3.take 3

/-- Accuracy figures one game contributes to the overall average
(source lines 432-449): the figure of the attributed side when the attribution is
the exact string white or black, else the figures of both sides, missing figures
excluded. -/
def gameAccuracies (user_color : Option String) (g : AnalyzedGame) : List ℚ :=
  let wa := g.summary.bind (fun s => s.white_accuracy)
  let ba := g.summary.bind (fun s => s.black_accuracy)
  if user_color = some "white" then
    match wa with | some v => [v] | none => []
  else if user_color = some "black" then
    match ba with | some v => [v] | none => []
  else
    (match wa with | some v => [v] | none => []) ++
    (match ba with | some v => [v] | none => [])

/-- Facade pass _calculate_overall_accuracy. -/
def calculate_overall_accuracy (games : List AnalyzedGame) (cols : List (Option String)) :
    Except String ℚ :=
  match perGameE (fun _ uc g => gameAccuracies uc g) 0 games cols with
  | .error e => .error e
  | .ok per =>
    let accuracies := per.flatten
    .ok (if accuracies = [] then 0
         else round1 (accuracies.sum / (accuracies.length : ℚ)))

/-- Facade entry point PatternDetector.analyze_games: defaults a missing
attribution list to all-None of the game count, then runs the three passes and
the ranker in source order.  A Python exception (the IndexError of
player_colors[game_idx] on a too-short attribution list) is the error case. -/
def analyze_games (analyzed_games : List AnalyzedGame)
    (player_colors : Option (List (Option String))) : Except String PatternSummary :=
  let cols :=
    match player_colors with
    | none => List.replicate analyzed_games.length none
    | some l => l
  match detect_tactical_patterns analyzed_games cols with
  | .error e => .error e
  | .ok patterns =>
    match analyze_phase_performance analyzed_games cols with
    | .error e => .error e
    | .ok phases =>
      let recommendations := generate_recommendations patterns phases
      match calculate_overall_accuracy analyzed_games cols with
      | .error e => .error e
      | .ok overall_accuracy =>
        .ok { total_games := analyzed_games.length
              tactical_patterns := patterns
              phase_stats := phases
              overall_accuracy := overall_accuracy
              recommendations := recommendations }

/-!  Helper observers used to state the claims. -/

/-- Success observer for the Except results of the aggregator. -/
def isOkE {ε α : Type} : Except ε α → Bool
  | .ok _ => true
  | .error _ => false

/-- Tactical-pattern dict of a summary, empty on error. -/
def tacticalOf : Except String PatternSummary → List (String × List Finding)
  | .ok s => s.tactical_patterns
  | .error _ => []

/-- Phase-stats dict of a summary, empty on error. -/
def phasesOf : Except String PatternSummary → List (String × PhaseStat)
  | .ok s => s.phase_stats
  | .error _ => []

/-- Recommendation list of a summary, empty on error. -/
def recsOf : Except String PatternSummary → List String
  | .ok s => s.recommendations
  | .error _ => []

/-- Ordered-dict lookup by key. -/
def dictGet {γ : Type} (l : List (String × γ)) (k : String) : Option γ :=
  (l.find? (fun p => p.1 == k)).map (fun p => p.2)

/-- Findings of one pattern key inside a flat scan list, in scan order. -/
def bucketsOf (flat : List (String × Finding)) (k : String) : List Finding :=
  (flat.filter (fun p => p.1 == k)).map (fun p => p.2)

/-- Flat finding sequence of the whole batch, in scan order: games in order,
moves of a game in order. -/
def flatFindings (games : List AnalyzedGame) (cols : List (Option String)) :
    List (String × Finding) :=
  (perGame scanGame 0 games cols).flatten

/-- Total number of moves handed to the aggregator. -/
def totalMoves (games : List AnalyzedGame) : Nat :=
  (games.map (fun g => (g.moves.getD []).length)).sum

/-- Flat list of the moves the phase pass counts, in traversal order. -/
def countedFlat (games : List AnalyzedGame) (cols : List (Option String)) :
    List MoveRecord :=
  (perGame (fun _ uc g => countedMoves uc g) 0 games cols).flatten

/-- Membership test of a move in a phase bucket. -/
def isInPhase (ph : GamePhase) (m : MoveRecord) : Bool :=
  get_phase (m.move_number.getD 0) = ph

/-- Counted moves of the batch landing in one phase bucket. -/
def phaseMovesOf (games : List AnalyzedGame) (cols : List (Option String))
    (ph : GamePhase) : List MoveRecord :=
  (countedFlat games cols).filter (isInPhase ph)

/-- Average centipawn loss of a phase bucket. -/
def phaseAvgLoss (games : List AnalyzedGame) (cols : List (Option String))
    (ph : GamePhase) : ℚ :=
  ((phaseMovesOf games cols ph).map cpLoss).sum / ((phaseMovesOf games cols ph).length : ℚ)

/-- Bool form of the per-move parse failure the error-handling spec describes:
the move has no usable FEN (missing, empty, or unparseable). -/
def fenFailsB (m : MoveRecord) : Bool :=
  match m.fen_after with
  | none => true
  | some fen => fen == "" || (parseFEN fen).isNone

/-- Substring search on strings (structural, for counterexample statements). -/
def leadMatch : List Char → List Char → Bool
  | _, [] => true
  | [], _ :: _ => false
  | a :: as, b :: bs => a = b && leadMatch as bs

/-- Substring occurrence test. -/
def subMatch : List Char → List Char → Bool
  | [], pat => pat.isEmpty
  | a :: t, pat => leadMatch (a :: t) pat || subMatch t pat

/-- Substring occurrence test on strings. -/
def substrB (s pat : String) : Bool := subMatch s.data pat.data

/-!  Traversal lemmas: the indexed per-game traversal succeeds exactly when
the attribution list covers every game index, and then computes the total
traversal. -/

theorem perGameE_ok {α : Type} (f : Nat → Option String → AnalyzedGame → α) :
    ∀ (games : List AnalyzedGame) (i : Nat) (cols : List (Option String)),
      i + games.length ≤ cols.length →
      perGameE f i games cols = .ok (perGame f i games cols) := by
  intro games
  induction games with
  | nil => intro i cols _; rfl
  | cons g rest ih =>
    intro i cols h
    have hi : i < cols.length := by simp only [List.length_cons] at h; omega
    have h1 : cols[i]? = some cols[i] := List.getElem?_eq_getElem hi
    have h2 : cols.getD i none = cols[i] := by
      simp [List.getD, h1]
    have h3 := ih (i + 1) cols (by simp only [List.length_cons] at h; omega)
    simp only [perGameE, perGame, h1, h3, h2]

theorem perGameE_ok_inv {α : Type} (f : Nat → Option String → AnalyzedGame → α) :
    ∀ (games : List AnalyzedGame) (i : Nat) (cols : List (Option String))
      (l : List α), perGameE f i games cols = .ok l → l = perGame f i games cols := by
  intro games
  induction games with
  | nil =>
    intro i cols l h
    simp only [perGameE] at h
    cases h
    rfl
  | cons g rest ih =>
    intro i cols l h
    simp only [perGameE] at h
    cases hc : cols[i]? with
    | none => rw [hc] at h; cases h
    | some uc =>
      rw [hc] at h
      cases hrec : perGameE f (i + 1) rest cols with
      | error e => rw [hrec] at h; cases h
      | ok tail =>
        rw [hrec] at h
        cases h
        have h2 : cols.getD i none = uc := by
          simp [List.getD, hc]
        simp only [perGame, h2, ih (i + 1) cols tail hrec]

theorem perGameE_err {α : Type} (f : Nat → Option String → AnalyzedGame → α) :
    ∀ (games : List AnalyzedGame) (i : Nat) (cols : List (Option String)),
      games ≠ [] → cols.length < i + games.length →
      perGameE f i games cols = .error "IndexError: list index out of range" := by
  intro games
  induction games with
  | nil => intro i cols hne _; exact absurd rfl hne
  | cons g rest ih =>
    intro i cols _ hlt
    simp only [perGameE]
    cases hc : cols[i]? with
    | none => rfl
    | some uc =>
      have hi : i < cols.length := by
        have := List.getElem?_eq_some_iff.mp hc
        exact this.1
      cases rest with
      | nil => simp only [List.length_cons, List.length_nil] at hlt; omega
      | cons g2 rest2 =>
        rw [ih (i + 1) cols (by simp) (by simp only [List.length_cons] at hlt ⊢; omega)]

/-!  Dict-building lemmas: the incremental pattern dict holds, per key, exactly
the findings of the flat scan of that key, in scan order, with no duplicate keys,
and the bucket sizes add up to the number of findings. -/

/-- Invariant of the dict fold: acc is the dict of the already-scanned list
pref. -/
def BInv (acc : List (String × List Finding)) (pref : List (String × Finding)) : Prop :=
  (∀ p ∈ acc, p.2 = bucketsOf pref p.1 ∧ p.2 ≠ []) ∧
  (∀ k, bucketsOf pref k ≠ [] → ∃ q ∈ acc, q.1 = k) ∧
  (acc.map (fun p => p.1)).Nodup ∧
  (acc.map (fun p => p.2.length)).sum = pref.length

theorem bucketsOf_append_single (pref : List (String × Finding)) (k0 : String)
    (f : Finding) (k : String) :
    bucketsOf (pref ++ [(k0, f)]) k = bucketsOf pref k ++ (if k0 = k then [f] else []) := by
  by_cases h : k0 = k <;>
    simp [bucketsOf, List.filter_append, h]

theorem map_addf_id (k0 : String) (f : Finding) :
    ∀ (l : List (String × List Finding)), (∀ p ∈ l, p.1 ≠ k0) →
      l.map (fun p => if p.1 = k0 then (p.1, p.2 ++ [f]) else p) = l := by
  intro l hl
  induction l with
  | nil => rfl
  | cons a t ih =>
    have ha : a.1 ≠ k0 := hl a (List.mem_cons_self _ _)
    simp [ha, ih (fun p hp => hl p (List.mem_cons_of_mem _ hp))]

theorem BInv_step (acc : List (String × List Finding)) (pref : List (String × Finding))
    (k0 : String) (f : Finding) (h : BInv acc pref) :
    BInv (addFinding acc k0 f) (pref ++ [(k0, f)]) := by
  obtain ⟨hbuck, hcomp, hnodup, hsum⟩ := h
  by_cases hmem : ∃ q ∈ acc, q.1 = k0
  · obtain ⟨q, hq, hqk⟩ := hmem
    have hany : acc.any (fun p => decide (p.1 = k0)) = true := by
      rw [List.any_eq_true]
      exact ⟨q, hq, by simp [hqk]⟩
    obtain ⟨l1, l2, hdecomp⟩ := List.append_of_mem hq
    subst hdecomp
    have hnod := hnodup
    simp only [List.map_append, List.map_cons, List.nodup_append, List.nodup_cons] at hnod
    have hk1 : ∀ p ∈ l1, p.1 ≠ k0 := by
      intro p hp he
      exact hnod.2.2 (List.mem_map_of_mem _ hp)
        (by simp only [List.mem_cons]; left; rw [he, hqk])
    have hk2 : ∀ p ∈ l2, p.1 ≠ k0 := by
      intro p hp he
      apply hnod.2.1.1
      have hm : p.1 ∈ List.map (fun p => p.1) l2 := List.mem_map_of_mem _ hp
      rw [he, ← hqk] at hm
      exact hm
    have hmap1 := map_addf_id k0 f l1 hk1
    have hmap2 := map_addf_id k0 f l2 hk2
    have haddf : addFinding (l1 ++ q :: l2) k0 f =
        l1 ++ (q.1, q.2 ++ [f]) :: l2 := by
      simp only [addFinding, hany, if_true, List.map_append, List.map_cons, hmap1, hmap2, hqk,
        if_pos]
    rw [haddf]
    refine ⟨?_, ?_, ?_, ?_⟩
    · intro p hp
      rcases List.mem_append.mp hp with hp1 | hp2
      · have hb := hbuck p (List.mem_append_left _ hp1)
        rw [bucketsOf_append_single]
        have hne : ¬ k0 = p.1 := fun he => hk1 p hp1 he.symm
        refine ⟨?_, hb.2⟩
        simpa [hne] using hb.1
      · rcases List.mem_cons.mp hp2 with hpe | hp2
        · subst hpe
          have hb := hbuck q (List.mem_append_right _ (List.mem_cons_self _ _))
          rw [bucketsOf_append_single]
          refine ⟨?_, by simp⟩
          simp only [hqk] at hb ⊢
          simp [hb.1]
        · have hb := hbuck p (List.mem_append_right _ (List.mem_cons_of_mem _ hp2))
          rw [bucketsOf_append_single]
          have hne : ¬ k0 = p.1 := fun he => hk2 p hp2 he.symm
          refine ⟨?_, hb.2⟩
          simpa [hne] using hb.1
    · intro k hk
      rw [bucketsOf_append_single] at hk
      by_cases hke : k0 = k
      · subst hke
        exact ⟨(q.1, q.2 ++ [f]),
          List.mem_append_right _ (List.mem_cons_self _ _), hqk⟩
      · have hne : bucketsOf pref k ≠ [] := by
          simpa [hke] using hk
        obtain ⟨q2, hq2, hq2k⟩ := hcomp k hne
        rcases List.mem_append.mp hq2 with hq1 | hq2c
        · exact ⟨q2, List.mem_append_left _ hq1, hq2k⟩
        · rcases List.mem_cons.mp hq2c with hqe | hq2c
          · subst hqe
            exact ⟨(q2.1, q2.2 ++ [f]),
              List.mem_append_right _ (List.mem_cons_self _ _), hq2k⟩
          · exact ⟨q2, List.mem_append_right _ (List.mem_cons_of_mem _ hq2c), hq2k⟩
    · simpa using hnodup
    · simp only [List.map_append, List.map_cons, List.sum_append, List.sum_cons,
        List.length_append, List.length_cons, List.length_nil] at hsum ⊢
      omega
  · push_neg at hmem
    have hany : acc.any (fun p => decide (p.1 = k0)) = false := by
      rw [List.any_eq_false]
      intro p hp
      simp [hmem p hp]
    have haddf : addFinding acc k0 f = acc ++ [(k0, [f])] := by
      simp only [addFinding, hany]
      rfl
    rw [haddf]
    have hempty : bucketsOf pref k0 = [] := by
      by_contra he
      obtain ⟨q, hq, hqk⟩ := hcomp k0 he
      exact hmem q hq hqk
    refine ⟨?_, ?_, ?_, ?_⟩
    · intro p hp
      rcases List.mem_append.mp hp with hp1 | hp2
      · have hb := hbuck p hp1
        rw [bucketsOf_append_single]
        have hne : ¬ k0 = p.1 := fun he => hmem p hp1 he.symm
        refine ⟨?_, hb.2⟩
        simpa [hne] using hb.1
      · rcases List.mem_cons.mp hp2 with hpe | habs
        · subst hpe
          rw [bucketsOf_append_single]
          simp [hempty]
        · cases habs
    · intro k hk
      rw [bucketsOf_append_single] at hk
      by_cases hke : k0 = k
      · subst hke
        exact ⟨(k0, [f]), List.mem_append_right _ (List.mem_cons_self _ _), rfl⟩
      · have hne : bucketsOf pref k ≠ [] := by simpa [hke] using hk
        obtain ⟨q2, hq2, hq2k⟩ := hcomp k hne
        exact ⟨q2, List.mem_append_left _ hq2, hq2k⟩
    · simp only [List.map_append, List.map_cons, List.map_nil]
      rw [List.nodup_append]
      refine ⟨hnodup, List.nodup_singleton _, ?_⟩
      intro a ha hb
      simp only [List.mem_singleton] at hb
      subst hb
      obtain ⟨p, hp, hpk⟩ := List.mem_map.mp ha
      exact hmem p hp hpk
    · simp only [List.map_append, List.map_cons, List.map_nil, List.sum_append,
        List.sum_cons, List.sum_nil, List.length_append, List.length_cons, List.length_nil]
      omega

theorem BInv_fold (flat : List (String × Finding)) :
    ∀ (acc : List (String × List Finding)) (pref : List (String × Finding)),
      BInv acc pref →
      BInv (flat.foldl (fun a kf => addFinding a kf.1 kf.2) acc) (pref ++ flat) := by
  induction flat with
  | nil => intro acc pref h; simpa using h
  | cons kf rest ih =>
    intro acc pref h
    have h2 := BInv_step acc pref kf.1 kf.2 h
    have h3 := ih (addFinding acc kf.1 kf.2) (pref ++ [(kf.1, kf.2)]) h2
    simpa using h3

theorem bucketize_inv (flat : List (String × Finding)) : BInv (bucketize flat) flat := by
  have h0 : BInv [] [] := by
    refine ⟨by simp, ?_, by simp, by simp⟩
    intro k hk
    simp [bucketsOf] at hk
  have := BInv_fold flat [] [] h0
  simpa [bucketize] using this

/-!  Scan lemmas: what a successful single-move scan reveals, and the order
structure of the flat finding sequence. -/

theorem firstHitAux_mem (b : Board) (vc ec : Color) :
    ∀ (ds : List (String × (Board → Color → Color → Option (String × ℚ))))
      (k d : String) (v : ℚ), firstHitAux b vc ec ds = some (k, d, v) →
      k ∈ ds.map (fun p => p.1) := by
  intro ds
  induction ds with
  | nil => intro k d v h; cases h
  | cons hd tl ih =>
    intro k d v h
    simp only [firstHitAux] at h
    cases he : hd.2 b vc ec with
    | some r =>
      rw [he] at h
      cases h
      simp
    | none =>
      rw [he] at h
      simp only [List.map_cons, List.mem_cons]
      exact Or.inr (ih k d v h)

theorem firstDetectorHit_keys (b : Board) (vc ec : Color) (k d : String) (v : ℚ)
    (h : firstDetectorHit b vc ec = some (k, d, v)) :
    k ∈ ["hanging_piece", "knight_fork", "pin", "back_rank"] := by
  have := firstHitAux_mem b vc ec TACTICAL_DETECTORS k d v h
  simpa [TACTICAL_DETECTORS] using this

theorem firstDetectorHit_hanging (b : Board) (vc ec : Color) (r : String × ℚ)
    (h : detect_hanging_pieces b vc = some r) :
    firstDetectorHit b vc ec = some ("hanging_piece", r.1, r.2) := by
  simp [firstDetectorHit, TACTICAL_DETECTORS, firstHitAux, h]

theorem scanMove_char (i : Nat) (uc : Option String) (m : MoveRecord)
    (p : String × Finding) (h : scanMove i uc m = some p) :
    p.2.game_index = i ∧ p.2.pattern = p.1 ∧
    ∃ fen b d v,
      m.fen_after = some fen ∧ fen ≠ "" ∧ parseFEN fen = some b ∧
      firstDetectorHit b (victimColorOf m) (victimColorOf m).other = some (p.1, d, v) ∧
      p.2.lost_material =
        (if 0 < round1 |evalChangeVal m| then round1 |evalChangeVal m| else v) ∧
      p.2.description = d ∧ p.2.fen = fen ∧
      p.2.move_number = m.move_number.getD 0 := by
  by_cases hcls : (m.classification = some "blunder" ∨ m.classification = some "mistake")
  case neg => simp [scanMove, hcls] at h
  case pos =>
  by_cases hskip : colorSkip uc m = true
  case pos => simp [scanMove, hcls, hskip] at h
  case neg =>
  cases hfen : m.fen_after with
  | none => simp [scanMove, hcls, hskip, hfen] at h
  | some fen =>
  by_cases hne : fen = ""
  case pos => simp [scanMove, hcls, hskip, hfen, hne] at h
  case neg =>
  cases hb : parseFEN fen with
  | none => simp [scanMove, hcls, hskip, hfen, hne, hb] at h
  | some board =>
  cases hhit : firstDetectorHit board (victimColorOf m) (victimColorOf m).other with
  | none => simp [scanMove, hcls, hskip, hfen, hne, hb, hhit] at h
  | some kdv =>
    obtain ⟨key, desc, mat⟩ := kdv
    simp only [scanMove, hcls, hskip, hfen, hne, hb, hhit, if_true, if_false,
      Option.some.injEq, ite_true, ite_false, Bool.false_eq_true] at h
    subst h
    exact ⟨rfl, rfl, fen, board, desc, mat, rfl, hne, hb, hhit, rfl, rfl, rfl, rfl⟩

theorem scanMove_none_of_fenFails (i : Nat) (uc : Option String) (m : MoveRecord)
    (h : fenFailsB m = true) : scanMove i uc m = none := by
  by_cases hcls : (m.classification = some "blunder" ∨ m.classification = some "mistake")
  case neg => simp [scanMove, hcls]
  case pos =>
  by_cases hskip : colorSkip uc m = true
  case pos => simp [scanMove, hcls, hskip]
  case neg =>
  cases hfen : m.fen_after with
  | none => simp [scanMove, hcls, hskip, hfen]
  | some fen =>
    simp only [fenFailsB, hfen, Bool.or_eq_true, beq_iff_eq, Option.isNone_iff_eq_none] at h
    rcases h with h | h
    · simp [scanMove, hcls, hskip, hfen, h]
    · by_cases hne : fen = ""
      · simp [scanMove, hcls, hskip, hfen, hne]
      · simp [scanMove, hcls, hskip, hfen, hne, h]

theorem scanGame_game_index (i : Nat) (uc : Option String) (g : AnalyzedGame) :
    ∀ p ∈ scanGame i uc g, p.2.game_index = i := by
  intro p hp
  obtain ⟨m, _, hm⟩ := List.mem_filterMap.mp hp
  exact (scanMove_char i uc m p hm).1

theorem perGame_scan_flat_index :
    ∀ (games : List AnalyzedGame) (i : Nat) (cols : List (Option String)),
      ∀ p ∈ (perGame scanGame i games cols).flatten, i ≤ p.2.game_index := by
  intro games
  induction games with
  | nil => intro i cols p hp; simp [perGame] at hp
  | cons g rest ih =>
    intro i cols p hp
    simp only [perGame, List.flatten_cons, List.mem_append] at hp
    rcases hp with hp | hp
    · exact le_of_eq (scanGame_game_index i _ g p hp).symm
    · exact le_trans (Nat.le_succ i) (ih (i + 1) cols p hp)

theorem perGame_scan_flat_sorted :
    ∀ (games : List AnalyzedGame) (i : Nat) (cols : List (Option String)),
      ((perGame scanGame i games cols).flatten.map (fun p => p.2.game_index)).Sorted (· ≤ ·) := by
  intro games
  induction games with
  | nil => intro i cols; simp [perGame]
  | cons g rest ih =>
    intro i cols
    simp only [perGame, List.flatten_cons, List.map_append]
    rw [List.Sorted, List.pairwise_append]
    refine ⟨?_, ih (i + 1) cols, ?_⟩
    · apply List.pairwise_of_forall_mem_list
      intro a ha b hb
      obtain ⟨pa, hpa, hea⟩ := List.mem_map.mp ha
      obtain ⟨pb, hpb, heb⟩ := List.mem_map.mp hb
      subst hea heb
      rw [scanGame_game_index i _ g pa hpa, scanGame_game_index i _ g pb hpb]
    · intro a ha b hb
      obtain ⟨pa, hpa, hea⟩ := List.mem_map.mp ha
      obtain ⟨pb, hpb, heb⟩ := List.mem_map.mp hb
      subst hea heb
      rw [scanGame_game_index i _ g pa hpa]
      exact le_trans (Nat.le_succ i) (perGame_scan_flat_index rest (i + 1) cols pb hpb)

theorem perGame_scan_flat_length :
    ∀ (games : List AnalyzedGame) (i : Nat) (cols : List (Option String)),
      (perGame scanGame i games cols).flatten.length ≤ totalMoves games := by
  intro games
  induction games with
  | nil => intro i cols; simp [perGame, totalMoves]
  | cons g rest ih =>
    intro i cols
    simp only [perGame, List.flatten_cons, List.length_append, totalMoves, List.map_cons,
      List.sum_cons]
    have h1 : (scanGame i (cols.getD i none) g).length ≤ (g.moves.getD []).length :=
      List.length_filterMap_le _ _
    have h2 := ih (i + 1) cols
    simp only [totalMoves] at h2
    omega

theorem perGame_scan_flat_nil :
    ∀ (games : List AnalyzedGame) (i : Nat) (cols : List (Option String)),
      (∀ g ∈ games, ∀ m ∈ g.moves.getD [], fenFailsB m = true) →
      (perGame scanGame i games cols).flatten = [] := by
  intro games
  induction games with
  | nil => intro i cols _; simp [perGame]
  | cons g rest ih =>
    intro i cols h
    simp only [perGame, List.flatten_cons, List.append_eq_nil]
    constructor
    · rw [scanGame, List.filterMap_eq_nil_iff]
      intro m hm
      exact scanMove_none_of_fenFails i _ m (h g (List.mem_cons_self _ _) m hm)
    · exact ih (i + 1) cols (fun g2 hg2 => h g2 (List.mem_cons_of_mem _ hg2))

/-!  Phase-pass lemmas: the single fold over all counted moves fills each
bucket with exactly the moves of that phase, in order. -/

/-- Accumulation of a move list into one bucket. -/
def pdFoldAll (pd : PhaseData) (ms : List MoveRecord) : PhaseData := ms.foldl pdAdd pd

theorem pdFoldAll_cp : ∀ (ms : List MoveRecord) (pd : PhaseData),
    (pdFoldAll pd ms).cp_losses = pd.cp_losses ++ ms.map cpLoss := by
  intro ms
  induction ms with
  | nil => intro pd; simp [pdFoldAll]
  | cons m rest ih =>
    intro pd
    show (pdFoldAll (pdAdd pd m) rest).cp_losses = _
    rw [ih]
    simp [pdAdd]

theorem pdFoldAll_moves : ∀ (ms : List MoveRecord) (pd : PhaseData),
    (pdFoldAll pd ms).moves = pd.moves + ms.length := by
  intro ms
  induction ms with
  | nil => intro pd; simp [pdFoldAll]
  | cons m rest ih =>
    intro pd
    show (pdFoldAll (pdAdd pd m) rest).moves = _
    rw [ih]
    simp [pdAdd]
    omega

theorem phaseFold_opening : ∀ (ms : List MoveRecord) (t : PhaseTotals),
    (ms.foldl phaseStep t).opening = pdFoldAll t.opening (ms.filter (isInPhase .opening)) := by
  intro ms
  induction ms with
  | nil => intro t; simp [pdFoldAll]
  | cons m rest ih =>
    intro t
    rw [List.foldl_cons, ih]
    cases hph : get_phase (m.move_number.getD 0) <;>
      simp [phaseStep, hph, isInPhase, List.filter_cons, pdFoldAll]

theorem phaseFold_middlegame : ∀ (ms : List MoveRecord) (t : PhaseTotals),
    (ms.foldl phaseStep t).middlegame =
      pdFoldAll t.middlegame (ms.filter (isInPhase .middlegame)) := by
  intro ms
  induction ms with
  | nil => intro t; simp [pdFoldAll]
  | cons m rest ih =>
    intro t
    rw [List.foldl_cons, ih]
    cases hph : get_phase (m.move_number.getD 0) <;>
      simp [phaseStep, hph, isInPhase, List.filter_cons, pdFoldAll]

theorem phaseFold_endgame : ∀ (ms : List MoveRecord) (t : PhaseTotals),
    (ms.foldl phaseStep t).endgame = pdFoldAll t.endgame (ms.filter (isInPhase .endgame)) := by
  intro ms
  induction ms with
  | nil => intro t; simp [pdFoldAll]
  | cons m rest ih =>
    intro t
    rw [List.foldl_cons, ih]
    cases hph : get_phase (m.move_number.getD 0) <;>
      simp [phaseStep, hph, isInPhase, List.filter_cons, pdFoldAll]

/-- Bucket of the totals for a phase member. -/
def phField (t : PhaseTotals) : GamePhase → PhaseData
  | .opening => t.opening
  | .middlegame => t.middlegame
  | .endgame => t.endgame

theorem phaseFold_field (t : PhaseTotals) (ms : List MoveRecord) (ph : GamePhase) :
    phField (ms.foldl phaseStep t) ph = pdFoldAll (phField t ph) (ms.filter (isInPhase ph)) := by
  cases ph
  · exact phaseFold_opening ms t
  · exact phaseFold_middlegame ms t
  · exact phaseFold_endgame ms t

theorem phaseResult_get (t : PhaseTotals) (ph : GamePhase) :
    dictGet (phaseResult t) ph.value =
      if (phField t ph).moves = 0 then none
      else some (mkPhaseStat ph.value (phField t ph)) := by
  cases ph <;>
    by_cases h1 : t.opening.moves = 0 <;>
    by_cases h2 : t.middlegame.moves = 0 <;>
    by_cases h3 : t.endgame.moves = 0 <;>
    simp [phaseResult, dictGet, phField, GamePhase.value, h1, h2, h3, List.find?]

/-!  Rounding lemmas. -/

theorem pyRound_nonneg (q : ℚ) (h : 0 ≤ q) : 0 ≤ pyRound q := by
  have hf : (0 : ℤ) ≤ ⌊q⌋ := Int.floor_nonneg.mpr h
  simp only [pyRound]
  split_ifs <;> omega

theorem round1_nonneg (q : ℚ) (h : 0 ≤ q) : 0 ≤ round1 q := by
  unfold round1
  have := pyRound_nonneg (q * 10) (by positivity)
  positivity

theorem round1_zero : round1 0 = 0 := by
  have h : pyRound 0 = 0 := by
    unfold pyRound
    norm_num
  unfold round1
  norm_num [h]

/-!  Selection lemmas: the head of the stable descending sort is the first
element attaining the maximal key. -/

theorem extractFirstMax_eq_none {α β : Type} [LinearOrder β] (key : α → β) :
    ∀ (l : List α), extractFirstMax key l = none ↔ l = [] := by
  intro l
  cases l with
  | nil => simp [extractFirstMax]
  | cons x xs =>
    rw [extractFirstMax]
    cases h : extractFirstMax key xs with
    | none => simp
    | some mr =>
      obtain ⟨m, r⟩ := mr
      by_cases hlt : key x < key m <;> simp [hlt]

theorem extractFirstMax_fst {α β : Type} [LinearOrder β] (key : α → β) :
    ∀ (l : List α), (extractFirstMax key l).map (fun x => x.1) = firstMaxBy key l := by
  intro l
  induction l with
  | nil => rfl
  | cons x xs ih =>
    rw [extractFirstMax, firstMaxBy, ← ih]
    cases h : extractFirstMax key xs with
    | none => simp
    | some mr =>
      obtain ⟨m, r⟩ := mr
      by_cases hlt : key x < key m <;> simp [hlt]

theorem firstMaxBy_cons_none {α β : Type} [LinearOrder β] (key : α → β) (x : α)
    (xs : List α) (h2 : firstMaxBy key xs = none) :
    firstMaxBy key (x :: xs) = some x := by
  rw [firstMaxBy, h2]

theorem firstMaxBy_cons_some {α β : Type} [LinearOrder β] (key : α → β) (x : α)
    (xs : List α) (m2 : α) (h2 : firstMaxBy key xs = some m2) :
    firstMaxBy key (x :: xs) = (if key x < key m2 then some m2 else some x) := by
  rw [firstMaxBy, h2]

theorem firstMaxBy_none {α β : Type} [LinearOrder β] (key : α → β) :
    ∀ (l : List α), firstMaxBy key l = none ↔ l = [] := by
  intro l
  cases l with
  | nil => simp [firstMaxBy]
  | cons x xs =>
    cases h2 : firstMaxBy key xs with
    | none => rw [firstMaxBy_cons_none key x xs h2]; simp
    | some m2 =>
      rw [firstMaxBy_cons_some key x xs m2 h2]
      by_cases hlt : key x < key m2 <;> simp [hlt]

theorem firstMaxBy_le {α β : Type} [LinearOrder β] (key : α → β) :
    ∀ (l : List α) (m : α), firstMaxBy key l = some m → ∀ y ∈ l, key y ≤ key m := by
  intro l
  induction l with
  | nil => intro m h; cases h
  | cons x xs ih =>
    intro m h y hy
    cases h2 : firstMaxBy key xs with
    | none =>
      rw [firstMaxBy_cons_none key x xs h2] at h
      have hx : x = m := by injection h
      have hnil : xs = [] := (firstMaxBy_none key xs).mp h2
      subst hnil hx
      simp only [List.mem_singleton] at hy
      subst hy
      exact le_refl _
    | some m2 =>
      rw [firstMaxBy_cons_some key x xs m2 h2] at h
      by_cases hlt : key x < key m2
      · rw [if_pos hlt] at h
        have hm : m2 = m := by injection h
        subst hm
        rcases List.mem_cons.mp hy with he | hm
        · subst he; exact le_of_lt hlt
        · exact ih m2 h2 y hm
      · rw [if_neg hlt] at h
        have hx : x = m := by injection h
        subst hx
        rcases List.mem_cons.mp hy with he | hm
        · subst he; exact le_refl _
        · exact le_trans (ih m2 h2 y hm) (le_of_not_lt hlt)

theorem firstMaxBy_earliest {α β : Type} [LinearOrder β] (key : α → β) :
    ∀ (l : List α) (m : α), firstMaxBy key l = some m →
      ∃ l1 l2, l = l1 ++ m :: l2 ∧ ∀ y ∈ l1, key y < key m := by
  intro l
  induction l with
  | nil => intro m h; cases h
  | cons x xs ih =>
    intro m h
    cases h2 : firstMaxBy key xs with
    | none =>
      rw [firstMaxBy_cons_none key x xs h2] at h
      have hx : x = m := by injection h
      subst hx
      exact ⟨[], xs, rfl, by simp⟩
    | some m2 =>
      rw [firstMaxBy_cons_some key x xs m2 h2] at h
      by_cases hlt : key x < key m2
      · rw [if_pos hlt] at h
        have hm : m2 = m := by injection h
        subst hm
        obtain ⟨l1, l2, hdec, hl⟩ := ih m2 h2
        refine ⟨x :: l1, l2, by simp [hdec], ?_⟩
        intro y hy
        rcases List.mem_cons.mp hy with he | hm2
        · subst he; exact hlt
        · exact hl y hm2
      · rw [if_neg hlt] at h
        have hx : x = m := by injection h
        subst hx
        exact ⟨[], xs, rfl, by simp⟩

theorem selectSortDescBy_head {α β : Type} [LinearOrder β] (key : α → β) (l : List α) :
    (selectSortDescBy key l).head? = firstMaxBy key l := by
  cases l with
  | nil => rfl
  | cons x xs =>
    show (selectSortDescAux key (xs.length + 1) (x :: xs)).head? = _
    rw [selectSortDescAux]
    cases h : extractFirstMax key (x :: xs) with
    | none =>
      rw [extractFirstMax_eq_none] at h
      cases h
    | some mr =>
      obtain ⟨m, r⟩ := mr
      have hfst := extractFirstMax_fst key (x :: xs)
      rw [h] at hfst
      rw [List.head?_cons]
      exact hfst

/-!  Fork-selection lemma: the best-candidate fold of the detector keeps a
candidate of maximal total among the forking candidates. -/

theorem forkFold_go (cands : List (Option (String × ℚ) × ℚ)) :
    ∀ (st : Option (String × ℚ) × ℚ),
      (st.2 ≤ (cands.foldl (fun best c => if c.1.isSome ∧ best.2 < c.2 then c else best) st).2) ∧
      (∀ r, (cands.foldl (fun best c => if c.1.isSome ∧ best.2 < c.2 then c else best) st).1 =
          some r →
        ((cands.foldl (fun best c => if c.1.isSome ∧ best.2 < c.2 then c else best) st) = st
          ∨ (cands.foldl (fun best c => if c.1.isSome ∧ best.2 < c.2 then c else best) st)
              ∈ cands)) ∧
      (∀ c ∈ cands, c.1 ≠ none →
        c.2 ≤ (cands.foldl (fun best c => if c.1.isSome ∧ best.2 < c.2 then c else best) st).2) := by
  induction cands with
  | nil => intro st; refine ⟨le_refl _, fun r _ => Or.inl rfl, by simp⟩
  | cons c rest ih =>
    intro st
    simp only [List.foldl_cons]
    by_cases hcond : c.1.isSome ∧ st.2 < c.2
    · rw [if_pos hcond]
      obtain ⟨h1, h2, h3⟩ := ih c
      refine ⟨le_trans (le_of_lt hcond.2) h1, ?_, ?_⟩
      · intro r hr
        rcases h2 r hr with he | hm
        · exact Or.inr (by rw [he]; exact List.mem_cons_self _ _)
        · exact Or.inr (List.mem_cons_of_mem _ hm)
      · intro c2 hc2 hne
        rcases List.mem_cons.mp hc2 with he | hm
        · subst he; exact h1
        · exact h3 c2 hm hne
    · rw [if_neg hcond]
      obtain ⟨h1, h2, h3⟩ := ih st
      refine ⟨h1, ?_, ?_⟩
      · intro r hr
        rcases h2 r hr with he | hm
        · exact Or.inl he
        · exact Or.inr (List.mem_cons_of_mem _ hm)
      · intro c2 hc2 hne
        rcases List.mem_cons.mp hc2 with he | hm
        · subst he
          have : ¬ st.2 < c2.2 := by
            intro hlt
            exact hcond ⟨Option.isSome_iff_ne_none.mpr hne, hlt⟩
          exact le_trans (le_of_not_lt this) h1
        · exact h3 c2 hm hne

/-!  Pass-level characterizations of the facade. -/

theorem detect_ok_inv (games : List AnalyzedGame) (cols : List (Option String))
    (pats : List (String × List Finding))
    (h : detect_tactical_patterns games cols = .ok pats) :
    pats = bucketize (flatFindings games cols) := by
  unfold detect_tactical_patterns at h
  cases hp : perGameE scanGame 0 games cols with
  | error e => rw [hp] at h; cases h
  | ok per =>
    rw [hp] at h
    cases h
    rw [flatFindings, ← perGameE_ok_inv scanGame games 0 cols per hp]

theorem phase_ok_inv (games : List AnalyzedGame) (cols : List (Option String))
    (phs : List (String × PhaseStat))
    (h : analyze_phase_performance games cols = .ok phs) :
    phs = phaseResult ((countedFlat games cols).foldl phaseStep initTotals) := by
  unfold analyze_phase_performance at h
  cases hp : perGameE (fun _ uc g => countedMoves uc g) 0 games cols with
  | error e => rw [hp] at h; cases h
  | ok per =>
    rw [hp] at h
    cases h
    rw [countedFlat, ← perGameE_ok_inv (fun _ uc g => countedMoves uc g) games 0 cols per hp]

theorem analyze_games_none_ok (games : List AnalyzedGame) :
    isOkE (analyze_games games none) = true := by
  have h1 := perGameE_ok scanGame games 0 (List.replicate games.length none) (by simp)
  have h2 := perGameE_ok (fun _ uc g => countedMoves uc g) games 0
    (List.replicate games.length none) (by simp)
  have h3 := perGameE_ok (fun _ uc g => gameAccuracies uc g) games 0
    (List.replicate games.length none) (by simp)
  simp [analyze_games, detect_tactical_patterns, analyze_phase_performance,
    calculate_overall_accuracy, h1, h2, h3, isOkE]

theorem analyze_games_short_err (games : List AnalyzedGame) (cols : List (Option String))
    (h : cols.length < games.length) :
    analyze_games games (some cols) = .error "IndexError: list index out of range" := by
  have hne : games ≠ [] := by
    intro e
    subst e
    simp at h
  have h1 := perGameE_err scanGame games 0 cols hne (by omega)
  simp [analyze_games, detect_tactical_patterns, h1]

theorem tacticalOf_analyze (games : List AnalyzedGame) :
    tacticalOf (analyze_games games none) =
      bucketize (flatFindings games (List.replicate games.length none)) := by
  have h1 := perGameE_ok scanGame games 0 (List.replicate games.length none) (by simp)
  have h2 := perGameE_ok (fun _ uc g => countedMoves uc g) games 0
    (List.replicate games.length none) (by simp)
  have h3 := perGameE_ok (fun _ uc g => gameAccuracies uc g) games 0
    (List.replicate games.length none) (by simp)
  simp [analyze_games, detect_tactical_patterns, analyze_phase_performance,
    calculate_overall_accuracy, h1, h2, h3, tacticalOf, flatFindings]

/-!  Concrete inputs used by the counterexamples and witnesses. -/

/-- Post-blunder position with a hanging White queen: Qd4 attacked by Rd8,
defended by nobody. -/
def hangFEN : String := "3r4/8/8/8/3Q4/8/8/8 b - - 0 1"

/-- Post-blunder position with a pinned White knight: Nd2 pinned by Bb4
against Ke1 and defended by the king, so it is not hanging; Black has no
knight, so only the pin detector fires. -/
def pinFEN : String := "8/8/8/8/1b6/8/3N4/4K3 b - - 0 1"

/-- Post-blunder position holding both motifs at once: Qd4 hangs to Rd8 while
Nd2 is pinned by Bb4 against Ke1. -/
def bothFEN : String := "3r4/8/8/8/1b1Q4/8/3N4/4K3 b - - 0 1"

/-- Position where the White knight on e7 forks the Black rook c8 and king g8. -/
def forkFEN : String := "2r3k1/4N3/8/8/8/8/8/4K3 w - - 0 1"

/-- Analysed-move literal for the concrete batches. -/
def mkScanMove (cls fen : String) (mn : ℤ) (ec : ℚ) : MoveRecord :=
  { move_number := some mn, color := some "white", fen_after := some fen,
    eval_change := some ec, classification := some cls }

/-- Game with no moves and no summary. -/
def emptyGame : AnalyzedGame := { moves := none, summary := none }

/-- Game whose two pin blunders are scanned before its two hanging-piece
blunders, producing a 2-2 frequency tie with pin inserted first. -/
def c3game : AnalyzedGame :=
  { moves := some [mkScanMove "blunder" pinFEN 10 (-2), mkScanMove "blunder" pinFEN 11 (-2),
                   mkScanMove "blunder" hangFEN 20 (-3), mkScanMove "blunder" hangFEN 21 (-3)],
    summary := none }

/-- Game triggering ranking steps 1, 2 and 3 at once: two hanging-piece
blunders in the opening, one pin blunder and one clean move in the middlegame. -/
def c9game : AnalyzedGame :=
  { moves := some [mkScanMove "blunder" hangFEN 5 (-3), mkScanMove "blunder" hangFEN 6 (-3),
                   mkScanMove "blunder" pinFEN 20 (-2), mkScanMove "good" pinFEN 21 0],
    summary := none }

/-- Blunder whose fen_after does not parse. -/
def c2move : MoveRecord := mkScanMove "blunder" "garbage" 1 (-3)

/-- Game whose single move has an unparseable FEN. -/
def c2game : AnalyzedGame := { moves := some [c2move], summary := none }

/-- Blunder with an eval change of -0.26 pawns on the hanging-queen position. -/
def c4move : MoveRecord := mkScanMove "blunder" hangFEN 3 (-26 / 100)

/-- Game holding only the -0.26 blunder. -/
def c4game : AnalyzedGame := { moves := some [c4move], summary := none }

/-- Finding the aggregator records for c4move. -/
def c4finding : Finding :=
  { game_index := 0, move_number := 3, pattern := "hanging_piece",
    lost_material := 3 / 10, fen := hangFEN,
    description := "Queen on d4 left undefended" }

/-- Blunder on the both-motifs position. -/
def bothMove : MoveRecord := mkScanMove "blunder" bothFEN 12 (-2)

/-- Finding the aggregator records for bothMove. -/
def bothFinding : Finding :=
  { game_index := 0, move_number := 12, pattern := "hanging_piece",
    lost_material := 2, fen := bothFEN,
    description := "Queen on d4 left undefended" }

/-- Fallback board value for reading parses in witness statements. -/
def blankBoard : Board := { squares := List.replicate 64 none, turn := .white }

/-- Parsed both-motifs board. -/
def bothBoard : Board := (parseFEN bothFEN).getD blankBoard

/-- Parsed fork board. -/
def forkBoard : Board := (parseFEN forkFEN).getD blankBoard

/-!  Claim C1. -/

/-- C1 (amended): analyze_games with an absent attribution list completes
without failure and scans both sides of every game (the color skip never
fires for a missing attribution), behaving exactly as an explicit all-None
list of the game count; but an attribution list SHORTER than the game list
makes the aggregator fail with the player_colors[game_idx] IndexError rather
than defaulting the uncovered games. -/
theorem C1_amended_thm (games : List AnalyzedGame) (cols : List (Option String))
    (m : MoveRecord) :
    isOkE (analyze_games games none) = true ∧
    colorSkip none m = false ∧
    analyze_games games none = analyze_games games (some (List.replicate games.length none)) ∧
    (cols.length < games.length → isOkE (analyze_games games (some cols)) = false) := by
  refine ⟨analyze_games_none_ok games, rfl, rfl, fun h => ?_⟩
  rw [analyze_games_short_err games cols h]
  rfl

unseal Rat.add Rat.mul Rat.sub Rat.inv Rat.ofScientific in
/-- C1 witness: the shorter-list hypothesis discharged on a one-game batch
with an empty attribution list. -/
theorem C1_amended_witness :
    isOkE (analyze_games [emptyGame] none) = true ∧
    colorSkip none c2move = false ∧
    isOkE (analyze_games [emptyGame] (some [])) = false :=
  ⟨(C1_amended_thm [emptyGame] [] c2move).1,
   (C1_amended_thm [emptyGame] [] c2move).2.1,
   (C1_amended_thm [emptyGame] [] c2move).2.2.2 (by decide)⟩

unseal Rat.add Rat.mul Rat.sub Rat.inv Rat.ofScientific in
/-- C1 counterexample: a one-game batch with an empty (hence shorter)
attribution list does not complete; it raises the IndexError of
player_colors[game_idx], refuting `accepts an attribution list that is absent
or shorter than the game list [and] completes without failure`. -/
theorem C1_counterexample :
    analyze_games [emptyGame] (some []) = .error "IndexError: list index out of range" := by
  have h := analyze_games_short_err [emptyGame] [] (by decide)
  exact h

/-!  Claim C2. -/

/-- C2 (amended): with an absent attribution list no exception propagates out
of analyze_games for any batch, and when every move of every game lacks a
usable fen_after (missing, empty or unparseable) the tactical findings are
empty; the phase statistics are NOT empty in that case, because the phase
pass never parses FENs - it still counts every non-skipped move. -/
theorem C2_amended_thm (games : List AnalyzedGame) :
    isOkE (analyze_games games none) = true ∧
    ((∀ g ∈ games, ∀ m ∈ g.moves.getD [], fenFailsB m = true) →
      tacticalOf (analyze_games games none) = []) := by
  refine ⟨analyze_games_none_ok games, fun hfail => ?_⟩
  rw [tacticalOf_analyze games]
  rw [flatFindings, perGame_scan_flat_nil games 0 _ hfail]
  rfl

unseal Rat.add Rat.mul Rat.sub Rat.inv Rat.ofScientific in
/-- C2 witness: the all-FENs-fail hypothesis discharged on the garbage-FEN
batch. -/
theorem C2_amended_witness :
    isOkE (analyze_games [c2game] none) = true ∧
    tacticalOf (analyze_games [c2game] none) = [] :=
  ⟨(C2_amended_thm [c2game]).1, (C2_amended_thm [c2game]).2 (by decide)⟩

unseal Rat.add Rat.mul Rat.sub Rat.inv Rat.ofScientific in
/-- C2 counterexample: in a batch whose every move fails to parse, the
summary is NOT genuinely empty: the findings are empty but the phase
statistics still report the unparseable blunder, refuting `the returned
summary is genuinely empty (no findings and no phase statistics)`. -/
theorem C2_counterexample :
    fenFailsB c2move = true ∧
    tacticalOf (analyze_games [c2game] none) = [] ∧
    phasesOf (analyze_games [c2game] none) =
      [("opening",
        { phase := "opening", avg_accuracy := 0, blunder_count := 1,
          mistake_count := 0, move_count := 1 })] ∧
    phasesOf (analyze_games [c2game] none) ≠ [] := by
  refine ⟨by decide, by decide, by decide, by decide⟩

/-!  Claim C3. -/

/-- Tie-break rule as the claim words it (for refutation): the most frequent
pattern type, ties between equally frequent types broken by the enumeration
order of PatternType - hanging_piece before knight_fork before pin before
back_rank.  This follows the claim text, not the source. -/
def claimC3MostFrequent (pats : List (String × List Finding)) : Option String :=
  let enumOrder := ["hanging_piece", "knight_fork", "pin", "back_rank"]
  let maxCount := (pats.map (fun p => p.2.length)).foldl max 0
  enumOrder.find? (fun k =>
    ((dictGet pats k).map (fun l => l.length)) == some maxCount)

/-- C3 (amended): whenever some pattern type has at least 2 findings, the
first recommendation is built from the most frequent pattern type with ties
broken by dict INSERTION order - the order pattern keys were first recorded
during the scan (Python sorted is stable and the dict preserves insertion
order) - not by the enumeration order of PatternType; the winning entry is
the earliest entry of maximal count, and the recommendation string embeds
the underscores-to-spaces name, the distinct game count and the 1-decimal
average lost_material of that entry. -/
theorem C3_amended_thm (pats : List (String × List Finding))
    (phases : List (String × PhaseStat)) (name : String) (instances : List Finding)
    (h1 : firstMaxBy (fun p => p.2.length) pats = some (name, instances))
    (h2 : 2 ≤ instances.length) :
    (generate_recommendations pats phases).head? = some (mkRec1 name instances) ∧
    (∀ p ∈ pats, p.2.length ≤ instances.length) ∧
    (∃ l1 l2, pats = l1 ++ (name, instances) :: l2 ∧
      ∀ p ∈ l1, p.2.length < instances.length) ∧
    (∃ pre mid1 mid2 post, mkRec1 name instances =
      pre ++ underscoresToSpaces name ++ mid1 ++ toString (distinctGameCount instances) ++
      mid2 ++ fmt1 (avgLostMaterial instances) ++ post) := by
  have hs := selectSortDescBy_head (fun p => p.2.length) pats
  rw [h1] at hs
  obtain ⟨rest, hsort⟩ : ∃ rest, selectSortDescBy (fun p => p.2.length) pats =
      (name, instances) :: rest := by
    cases hq : selectSortDescBy (fun p => p.2.length) pats with
    | nil => rw [hq] at hs; cases hs
    | cons a r =>
      rw [hq, List.head?_cons] at hs
      injection hs with hs
      subst hs
      exact ⟨r, rfl⟩
  refine ⟨?_, ?_, ?_, ?_⟩
  · simp only [generate_recommendations, hsort, rec1List, if_pos h2]
    simp
  · intro p hp
    exact firstMaxBy_le (fun p => p.2.length) pats (name, instances) h1 p hp
  · exact firstMaxBy_earliest (fun p => p.2.length) pats (name, instances) h1
  · refine ⟨"You\x27re losing material to ", "s (",
      " game" ++ pluralS (distinctGameCount instances) ++ ", avg ",
      " pawns lost). Practice recognizing " ++ underscoresToSpaces name ++ " patterns.", ?_⟩
    simp only [mkRec1]
    simp [String.append_assoc]

unseal Rat.add Rat.mul Rat.sub Rat.inv Rat.ofScientific in
/-- C3 witness: the two-findings hypothesis discharged on the tie batch,
where the pin entry was inserted first and wins. -/
theorem C3_amended_witness :
    (generate_recommendations (tacticalOf (analyze_games [c3game] none)) []).head? =
      some (mkRec1 "pin" (bucketsOf (flatFindings [c3game] [none]) "pin")) :=
  (C3_amended_thm (tacticalOf (analyze_games [c3game] none)) []
    "pin" (bucketsOf (flatFindings [c3game] [none]) "pin")
    (by decide) (by decide)).1

unseal Rat.add Rat.mul Rat.sub Rat.inv Rat.ofScientific in
/-- C3 counterexample: on the tie batch the enum-order tie-break of the claim
selects hanging_piece, whose readable name `hanging piece` the first
recommendation would then contain; but the first recommendation of the code is
built from pin (the first-inserted key), and does not mention hanging
pieces - refuting the claimed tie-break. -/
theorem C3_counterexample :
    claimC3MostFrequent (tacticalOf (analyze_games [c3game] none)) =
      some "hanging_piece" ∧
    (recsOf (analyze_games [c3game] none)).head? =
      some "You\x27re losing material to pins (1 game, avg 2.0 pawns lost). Practice recognizing pin patterns." ∧
    substrB "You\x27re losing material to pins (1 game, avg 2.0 pawns lost). Practice recognizing pin patterns."
      "hanging piece" = false := by
  refine ⟨by decide, by decide, by decide⟩

/-!  Claim C4. -/

/-- First recorded lost_material of a summary, if any finding exists. -/
def firstLost : Except String PatternSummary → Option ℚ
  | .ok s =>
    match s.tactical_patterns with
    | (_, f :: _) :: _ => some f.lost_material
    | _ => none
  | .error _ => none

/-- C4 (amended): for every scanned move that yields a Finding, lost_material
equals the absolute eval_change ROUNDED TO 1 DECIMAL whenever that rounded
value is positive, and otherwise equals the material estimate returned by the
matching detector; the raw absolute value is never stored. -/
theorem C4_amended_thm (i : Nat) (uc : Option String) (m : MoveRecord)
    (p : String × Finding) (h : scanMove i uc m = some p) :
    ∃ fen b d v, m.fen_after = some fen ∧ parseFEN fen = some b ∧
      firstDetectorHit b (victimColorOf m) (victimColorOf m).other = some (p.1, d, v) ∧
      p.2.lost_material =
        (if 0 < round1 |evalChangeVal m| then round1 |evalChangeVal m| else v) := by
  obtain ⟨-, -, fen, b, d, v, h1, -, h3, h4, h5, -, -, -⟩ := scanMove_char i uc m p h
  exact ⟨fen, b, d, v, h1, h3, h4, h5⟩

unseal Rat.add Rat.mul Rat.sub Rat.inv Rat.ofScientific in
/-- C4 witness: the scanned-move hypothesis discharged on the -0.26 blunder. -/
theorem C4_amended_witness :
    scanMove 0 none c4move = some ("hanging_piece", c4finding) ∧
    (∃ fen b d v, c4move.fen_after = some fen ∧ parseFEN fen = some b ∧
      firstDetectorHit b (victimColorOf c4move) (victimColorOf c4move).other =
        some (("hanging_piece", c4finding).1, d, v) ∧
      ("hanging_piece", c4finding).2.lost_material =
        (if 0 < round1 |evalChangeVal c4move| then round1 |evalChangeVal c4move| else v)) :=
  ⟨by decide, C4_amended_thm 0 none c4move ("hanging_piece", c4finding) (by decide)⟩

unseal Rat.add Rat.mul Rat.sub Rat.inv Rat.ofScientific in
/-- C4 counterexample: a blunder with eval_change -0.26 has positive absolute
eval change 0.26, yet its Finding records lost_material 0.3 (the rounded
value), refuting `lost_material equals the absolute value of eval_change of the move whenever that absolute value is positive`. -/
theorem C4_counterexample :
    c4move.eval_change = some (-26 / 100) ∧
    (0 : ℚ) < |(-26 / 100 : ℚ)| ∧
    firstLost (analyze_games [c4game] none) = some (3 / 10) ∧
    (3 / 10 : ℚ) ≠ |(-26 / 100 : ℚ)| := by
  refine ⟨by decide, by decide, by decide, by decide⟩

/-!  Claim C5. -/

/-- C5: detectors run in the fixed order hanging_piece, knight_fork, pin,
back_rank and the first hit wins, so each scanned move contributes at most
one Finding across all buckets: the bucket sizes add up to the flat finding
count, which never exceeds the number of moves handed in; and whenever the
hanging-piece detector fires on the board of a scanned move, the Finding of that move
is tagged hanging_piece - never pin - even if the position also holds a pin. -/
theorem C5_thm (games : List AnalyzedGame) (cols : List (Option String))
    (pats : List (String × List Finding))
    (h : detect_tactical_patterns games cols = .ok pats) :
    ((pats.map (fun p => p.2.length)).sum = (flatFindings games cols).length ∧
      (flatFindings games cols).length ≤ totalMoves games) ∧
    (∀ (i : Nat) (uc : Option String) (m : MoveRecord) (p : String × Finding)
      (fen : String) (b : Board),
      scanMove i uc m = some p → m.fen_after = some fen → parseFEN fen = some b →
      (detect_hanging_pieces b (victimColorOf m)).isSome = true →
      p.1 = "hanging_piece") := by
  constructor
  · constructor
    · rw [detect_ok_inv games cols pats h]
      exact (bucketize_inv (flatFindings games cols)).2.2.2
    · exact perGame_scan_flat_length games 0 cols
  · intro i uc m p fen b hscan hfen hparse hhang
    obtain ⟨-, -, fen2, b2, d, v, hfen2, -, hparse2, hhit, -, -, -, -⟩ :=
      scanMove_char i uc m p hscan
    rw [hfen] at hfen2
    injection hfen2 with hfe
    subst hfe
    rw [hparse] at hparse2
    injection hparse2 with hbe
    subst hbe
    obtain ⟨r, hr⟩ := Option.isSome_iff_exists.mp hhang
    rw [firstDetectorHit_hanging b (victimColorOf m) (victimColorOf m).other r hr] at hhit
    injection hhit with hpair
    exact (congrArg Prod.fst hpair).symm

theorem detect_ok_of_len (games : List AnalyzedGame) (cols : List (Option String))
    (h : games.length ≤ cols.length) :
    detect_tactical_patterns games cols = .ok (bucketize (flatFindings games cols)) := by
  have h1 := perGameE_ok scanGame games 0 cols (by omega)
  simp [detect_tactical_patterns, h1, flatFindings]

unseal Rat.add Rat.mul Rat.sub Rat.inv Rat.ofScientific in
/-- C5 witness: the hypotheses discharged on the position holding a hanging
queen and a pinned knight at once; the recorded Finding is tagged
hanging_piece although the pin detector would also fire there. -/
theorem C5_witness :
    (detect_hanging_pieces bothBoard (victimColorOf bothMove)).isSome = true ∧
    (detect_pin bothBoard (victimColorOf bothMove)).isSome = true ∧
    scanMove 0 none bothMove = some ("hanging_piece", bothFinding) ∧
    ("hanging_piece", bothFinding).1 = "hanging_piece" :=
  ⟨by decide, by decide, by decide,
   (C5_thm [{ moves := some [bothMove], summary := none }] [none]
      (bucketize (flatFindings [{ moves := some [bothMove], summary := none }] [none]))
      (detect_ok_of_len _ _ (by decide))).2
     0 none bothMove ("hanging_piece", bothFinding) bothFEN bothBoard
     (by decide) (by decide) (by decide) (by decide)⟩

/-!  Claim C6. -/

/-- C6: whenever the knight-fork detector reports, the report comes from one
of exactly the candidates the code enumerates - every existing exploiter
knight square on the given board, and the destination of every legal knight move
evaluated on an independently pushed board copy; the winning candidate
attacks at least 2 victim pieces among king, queen, rook and bishop, its
total attacked material is maximal among all forking candidates, the reported
material value is the MINIMUM value among the forked pieces, and the
description joins all forked piece names with `and`. -/
theorem C6_thm (b : Board) (ec : Color) (d : String) (v : ℚ)
    (h : detect_knight_fork b ec = some (d, v)) :
    ∃ c ∈ forkCandidates b ec,
      2 ≤ (forkTargets c.2 ec.other c.1).length ∧
      v = forkMin (forkTargets c.2 ec.other c.1) ∧
      d = "Knight on " ++ squareName c.1 ++ " forks " ++
        String.intercalate " and "
          ((forkTargets c.2 ec.other c.1).map (fun x => pieceName x.2.pt)) ∧
      (∀ c2 ∈ forkCandidates b ec,
        2 ≤ (forkTargets c2.2 ec.other c2.1).length →
        forkTotal (forkTargets c2.2 ec.other c2.1) ≤
          forkTotal (forkTargets c.2 ec.other c.1)) := by
  rw [show detect_knight_fork b ec =
      (((forkCandidates b ec).map (fun c => checkForkFrom c.2 ec.other c.1)).foldl
        (fun best c => if c.1.isSome ∧ best.2 < c.2 then c else best)
        ((none : Option (String × ℚ)), (0 : ℚ))).1 from rfl] at h
  obtain ⟨hmono, hsome, hmax⟩ :=
    forkFold_go ((forkCandidates b ec).map (fun c => checkForkFrom c.2 ec.other c.1))
      ((none : Option (String × ℚ)), (0 : ℚ))
  rcases hsome (d, v) h with he | hm
  · rw [he] at h
    simp at h
  · obtain ⟨c, hc, hce⟩ := List.mem_map.mp hm
    refine ⟨c, hc, ?_⟩
    have hck : checkForkFrom c.2 ec.other c.1 =
        (if 2 ≤ (forkTargets c.2 ec.other c.1).length then
          (some ("Knight on " ++ squareName c.1 ++ " forks " ++
            String.intercalate " and "
              ((forkTargets c.2 ec.other c.1).map (fun x => pieceName x.2.pt)),
            forkMin (forkTargets c.2 ec.other c.1)),
           forkTotal (forkTargets c.2 ec.other c.1))
        else (none, 0)) := rfl
    by_cases hlen : 2 ≤ (forkTargets c.2 ec.other c.1).length
    case neg =>
      exfalso
      rw [if_neg hlen] at hck
      rw [hck] at hce
      rw [← hce] at h
      simp at h
    case pos =>
      rw [if_pos hlen] at hck
      rw [hck] at hce
      rw [← hce] at h
      have h2 : some ("Knight on " ++ squareName c.1 ++ " forks " ++
          String.intercalate " and "
            ((forkTargets c.2 ec.other c.1).map (fun x => pieceName x.2.pt)),
          forkMin (forkTargets c.2 ec.other c.1)) = some (d, v) := h
      injection h2 with hdv
      have hd : "Knight on " ++ squareName c.1 ++ " forks " ++
          String.intercalate " and "
            ((forkTargets c.2 ec.other c.1).map (fun x => pieceName x.2.pt)) = d :=
        congrArg Prod.fst hdv
      have hv : forkMin (forkTargets c.2 ec.other c.1) = v := congrArg Prod.snd hdv
      refine ⟨hlen, hv.symm, hd.symm, ?_⟩
      intro c2 hc2 hlen2
      have hc2mem : checkForkFrom c2.2 ec.other c2.1 ∈
          (forkCandidates b ec).map (fun c => checkForkFrom c.2 ec.other c.1) :=
        List.mem_map_of_mem _ hc2
      have hck2 : checkForkFrom c2.2 ec.other c2.1 =
          (if 2 ≤ (forkTargets c2.2 ec.other c2.1).length then
            (some ("Knight on " ++ squareName c2.1 ++ " forks " ++
              String.intercalate " and "
                ((forkTargets c2.2 ec.other c2.1).map (fun x => pieceName x.2.pt)),
              forkMin (forkTargets c2.2 ec.other c2.1)),
             forkTotal (forkTargets c2.2 ec.other c2.1))
          else (none, 0)) := rfl
      rw [if_pos hlen2] at hck2
      have hc2ne : (checkForkFrom c2.2 ec.other c2.1).1 ≠ none := by
        rw [hck2]
        simp
      have hle := hmax (checkForkFrom c2.2 ec.other c2.1) hc2mem hc2ne
      rw [hck2, ← hce] at hle
      exact hle

unseal Rat.add Rat.mul Rat.sub Rat.inv Rat.ofScientific in
/-- C6 witness: the detector hypothesis discharged on the board where the
White knight on e7 forks the Black rook and king; the reported value is the
minimum (rook, 5) and the description joins the names with `and`. -/
theorem C6_witness :
    detect_knight_fork forkBoard .white = some ("Knight on e7 forks rook and king", 5) ∧
    (∃ c ∈ forkCandidates forkBoard .white,
      2 ≤ (forkTargets c.2 Color.white.other c.1).length ∧
      (5 : ℚ) = forkMin (forkTargets c.2 Color.white.other c.1) ∧
      "Knight on e7 forks rook and king" =
        "Knight on " ++ squareName c.1 ++ " forks " ++
        String.intercalate " and "
          ((forkTargets c.2 Color.white.other c.1).map (fun x => pieceName x.2.pt)) ∧
      (∀ c2 ∈ forkCandidates forkBoard .white,
        2 ≤ (forkTargets c2.2 Color.white.other c2.1).length →
        forkTotal (forkTargets c2.2 Color.white.other c2.1) ≤
          forkTotal (forkTargets c.2 Color.white.other c.1))) :=
  ⟨by decide,
   C6_thm forkBoard .white "Knight on e7 forks rook and king" 5 (by decide)⟩

/-!  Claim C7. -/

/-- C7: for every phase with at least one counted move, avg_accuracy equals
the 1-decimal rounding of clamp(100 - avg(centipawn-loss samples)/2, 0, 100)
where each sample is cpLoss = max(0, -eval_change*100); it is never negative,
it is exactly 0 when the average loss exceeds 200, and a phase with zero
counted moves is omitted from phase_stats entirely. -/
theorem C7_thm (games : List AnalyzedGame) (cols : List (Option String))
    (phases : List (String × PhaseStat)) (ph : GamePhase)
    (hok : analyze_phase_performance games cols = .ok phases) :
    (∀ st, dictGet phases ph.value = some st →
      phaseMovesOf games cols ph ≠ [] ∧
      st.avg_accuracy =
        round1 (max 0 (min 100 (100 - phaseAvgLoss games cols ph / 2))) ∧
      0 ≤ st.avg_accuracy ∧
      (200 < phaseAvgLoss games cols ph → st.avg_accuracy = 0)) ∧
    (phaseMovesOf games cols ph = [] → dictGet phases ph.value = none) := by
  have hphs := phase_ok_inv games cols phases hok
  subst hphs
  have hget := phaseResult_get ((countedFlat games cols).foldl phaseStep initTotals) ph
  have hinit : phField initTotals ph = PhaseData.empty := by cases ph <;> rfl
  have hfield := phaseFold_field initTotals (countedFlat games cols) ph
  rw [hinit] at hfield
  have hcp : (phField ((countedFlat games cols).foldl phaseStep initTotals) ph).cp_losses =
      (phaseMovesOf games cols ph).map cpLoss := by
    rw [hfield, pdFoldAll_cp]
    simp [PhaseData.empty, phaseMovesOf]
  have hmv : (phField ((countedFlat games cols).foldl phaseStep initTotals) ph).moves =
      (phaseMovesOf games cols ph).length := by
    rw [hfield, pdFoldAll_moves]
    simp [PhaseData.empty, phaseMovesOf]
  constructor
  · intro st hst
    rw [hget] at hst
    by_cases hz : (phField ((countedFlat games cols).foldl phaseStep initTotals) ph).moves = 0
    · rw [if_pos hz] at hst
      cases hst
    · rw [if_neg hz] at hst
      injection hst with hst
      have hne : phaseMovesOf games cols ph ≠ [] := by
        intro he
        rw [he] at hmv
        simp at hmv
        exact hz hmv
      have hcpne : (phField ((countedFlat games cols).foldl phaseStep initTotals) ph).cp_losses
          ≠ [] := by
        rw [hcp]
        simpa using hne
      have havg : st.avg_accuracy =
          round1 (max 0 (min 100 (100 - phaseAvgLoss games cols ph / 2))) := by
        rw [← hst]
        simp only [mkPhaseStat]
        rw [if_pos hcpne, hcp]
        simp [phaseAvgLoss]
      refine ⟨hne, havg, ?_, ?_⟩
      · rw [havg]
        exact round1_nonneg _ (le_max_left _ _)
      · intro h200
        rw [havg]
        have hneg : 100 - phaseAvgLoss games cols ph / 2 < 0 := by linarith
        rw [min_eq_right (by linarith : 100 - phaseAvgLoss games cols ph / 2 ≤ (100 : ℚ))]
        rw [max_eq_left (le_of_lt hneg)]
        exact round1_zero
  · intro he
    rw [hget, if_pos (by rw [hmv, he]; rfl)]

/-- Expected opening stats of the C9 batch. -/
def c7openingStat : PhaseStat :=
  { phase := "opening", avg_accuracy := 0, blunder_count := 2, mistake_count := 0,
    move_count := 2 }

/-- Expected middlegame stats of the C9 batch. -/
def c7middlegameStat : PhaseStat :=
  { phase := "middlegame", avg_accuracy := 50, blunder_count := 1, mistake_count := 0,
    move_count := 2 }

unseal Rat.add Rat.mul Rat.sub Rat.inv Rat.ofScientific in
/-- C7 witness: the lookup hypothesis discharged on the C9 batch, whose
opening phase averages 300 centipawns of loss and is clamped to 0.0, and
whose endgame phase has no moves and is omitted. -/
theorem C7_witness :
    (phaseMovesOf [c9game] [none] .opening ≠ [] ∧
      c7openingStat.avg_accuracy =
        round1 (max 0 (min 100 (100 - phaseAvgLoss [c9game] [none] .opening / 2))) ∧
      (0 : ℚ) ≤ c7openingStat.avg_accuracy ∧
      (200 < phaseAvgLoss [c9game] [none] .opening →
        c7openingStat.avg_accuracy = 0)) ∧
    (phasesOf (analyze_games [c9game] none) =
      [("opening", c7openingStat), ("middlegame", c7middlegameStat)]) ∧
    phaseMovesOf [c9game] [none] .endgame = [] ∧
    dictGet (phasesOf (analyze_games [c9game] none)) GamePhase.endgame.value = none := by
  refine ⟨?_, by decide, by decide, by decide⟩
  have hok : analyze_phase_performance [c9game] [none] = .ok
      (phaseResult (((countedFlat [c9game] [none])).foldl phaseStep initTotals)) := by
    have h1 := perGameE_ok (fun _ uc g => countedMoves uc g) [c9game] 0 [none] (by simp)
    simp [analyze_phase_performance, h1, countedFlat]
  exact (C7_thm [c9game] [none] _ .opening hok).1 c7openingStat (by decide)

/-!  Claim C8. -/

/-- C8: the phase bucketing maps move numbers 1..15 to opening (15 included),
16..40 to middlegame (both bounds included), and 41 and beyond to endgame. -/
theorem C8_thm (n : ℤ) :
    (1 ≤ n ∧ n ≤ 15 → get_phase n = .opening) ∧
    (16 ≤ n ∧ n ≤ 40 → get_phase n = .middlegame) ∧
    (41 ≤ n → get_phase n = .endgame) := by
  refine ⟨fun h => ?_, fun h => ?_, fun h => ?_⟩ <;>
    simp only [get_phase] <;> split_ifs <;> first | rfl | omega

/-- C8 witness: the boundary values 15, 16, 40 and 41. -/
theorem C8_witness :
    get_phase 15 = .opening ∧ get_phase 16 = .middlegame ∧
    get_phase 40 = .middlegame ∧ get_phase 41 = .endgame :=
  ⟨(C8_thm 15).1 (by decide), (C8_thm 16).2.1 (by decide),
   (C8_thm 40).2.1 (by decide), (C8_thm 41).2.2 (by decide)⟩

/-!  Claim C9. -/

unseal Rat.add Rat.mul Rat.sub Rat.inv Rat.ofScientific in
/-- C9: the recommendation list of every summary holds at most 3 strings -
the ranker truncates with recs[:3] no matter how many steps fired - and the
batch engineered to fire ranking steps 1, 2 and 3 together (the fourth,
fallback step is mutually exclusive with them by construction) yields exactly
3 recommendations. -/
theorem C9_thm :
    (∀ (patterns : List (String × List Finding)) (phases : List (String × PhaseStat)),
      (generate_recommendations patterns phases).length ≤ 3) ∧
    (recsOf (analyze_games [c9game] none)).length = 3 := by
  constructor
  · intro patterns phases
    simp only [generate_recommendations]
    rw [List.length_take]
    exact min_le_left _ _
  · decide

/-!  Claim C10. -/

theorem perGame_mem {α : Type} (f : Nat → Option String → AnalyzedGame → α) :
    ∀ (games : List AnalyzedGame) (i : Nat) (cols : List (Option String)) (x : α),
      x ∈ perGame f i games cols → ∃ j uc g, x = f j uc g := by
  intro games
  induction games with
  | nil => intro i cols x hx; simp [perGame] at hx
  | cons g rest ih =>
    intro i cols x hx
    rcases List.mem_cons.mp hx with he | hm
    · exact ⟨i, cols.getD i none, g, he⟩
    · exact ih (i + 1) cols x hm

theorem flat_mem_scan (games : List AnalyzedGame) (cols : List (Option String))
    (pr : String × Finding) (hpr : pr ∈ flatFindings games cols) :
    ∃ j uc m, scanMove j uc m = some pr := by
  obtain ⟨blk, hblk, hprb⟩ := List.mem_flatten.mp hpr
  obtain ⟨j, uc, g, hbe⟩ := perGame_mem scanGame games 0 cols blk hblk
  subst hbe
  obtain ⟨m, _, hm⟩ := List.mem_filterMap.mp hprb
  exact ⟨j, uc, m, hm⟩

/-- C10: every key of the tactical_patterns mapping is one of exactly the four
detector names - never discovered_attack or skewer although TacticalPattern
declares them - every present key maps to a non-empty list whose findings all
carry that pattern, the list is exactly the scan sequence filtered to that
key (so buckets keep scan order), and its game indices are nondecreasing. -/
theorem C10_thm (games : List AnalyzedGame) (cols : List (Option String))
    (pats : List (String × List Finding)) (k : String) (l : List Finding)
    (h : detect_tactical_patterns games cols = .ok pats) (hm : (k, l) ∈ pats) :
    k ∈ ["hanging_piece", "knight_fork", "pin", "back_rank"] ∧
    k ≠ TacticalPattern.discovered_attack.value ∧
    k ≠ TacticalPattern.skewer.value ∧
    l ≠ [] ∧
    l = bucketsOf (flatFindings games cols) k ∧
    (∀ f ∈ l, f.pattern = k) ∧
    (l.map (fun f => f.game_index)).Sorted (· ≤ ·) := by
  rw [detect_ok_inv games cols pats h] at hm
  obtain ⟨hbuck, hcomp, hnodup, hsum⟩ := bucketize_inv (flatFindings games cols)
  have hb := hbuck (k, l) hm
  have hl : l = bucketsOf (flatFindings games cols) k := hb.1
  have hlne : l ≠ [] := hb.2
  have hkmem : ∃ pr ∈ flatFindings games cols, pr.1 = k := by
    have hne : (flatFindings games cols).filter (fun p => p.1 == k) ≠ [] := by
      intro he
      apply hlne
      rw [hl, bucketsOf, he]
      rfl
    rcases hflt : (flatFindings games cols).filter (fun p => p.1 == k) with _ | ⟨pr, rest⟩
    · exact absurd hflt hne
    · have hin : pr ∈ (flatFindings games cols).filter (fun p => p.1 == k) := by
        rw [hflt]
        exact List.mem_cons_self _ _
      have hmf := List.mem_filter.mp hin
      exact ⟨pr, hmf.1, by simpa using hmf.2⟩
  obtain ⟨pr, hpr, hprk⟩ := hkmem
  obtain ⟨j, uc, m, hmv⟩ := flat_mem_scan games cols pr hpr
  obtain ⟨-, -, fen, b, d, v, -, -, -, hhit, -, -, -, -⟩ := scanMove_char j uc m pr hmv
  have hfour : k ∈ ["hanging_piece", "knight_fork", "pin", "back_rank"] := by
    rw [← hprk]
    exact firstDetectorHit_keys b (victimColorOf m) (victimColorOf m).other pr.1 d v hhit
  refine ⟨hfour, ?_, ?_, hlne, hl, ?_, ?_⟩
  · intro he
    rw [he] at hfour
    simp [TacticalPattern.value] at hfour
  · intro he
    rw [he] at hfour
    simp [TacticalPattern.value] at hfour
  · intro f hf
    rw [hl, bucketsOf] at hf
    obtain ⟨p2, hp2, hp2e⟩ := List.mem_map.mp hf
    have hmf := List.mem_filter.mp hp2
    obtain ⟨j2, uc2, m2, hmv2⟩ := flat_mem_scan games cols p2 hmf.1
    have hc := scanMove_char j2 uc2 m2 p2 hmv2
    rw [← hp2e, hc.2.1]
    simpa using hmf.2
  · have hsor := perGame_scan_flat_sorted games 0 cols
    rw [List.Sorted, List.pairwise_map] at hsor
    have hfil : List.Pairwise
        (fun a b : String × Finding => a.2.game_index ≤ b.2.game_index)
        ((flatFindings games cols).filter (fun p => p.1 == k)) :=
      hsor.sublist (List.filter_sublist (flatFindings games cols))
    rw [hl, bucketsOf, List.Sorted, List.map_map, List.pairwise_map]
    exact hfil

unseal Rat.add Rat.mul Rat.sub Rat.inv Rat.ofScientific in
/-- C10 witness: the membership hypothesis discharged on the C9 batch, whose
dict holds the keys hanging_piece and pin. -/
theorem C10_witness :
    ("hanging_piece", bucketsOf (flatFindings [c9game] [none]) "hanging_piece") ∈
      bucketize (flatFindings [c9game] [none]) ∧
    ("hanging_piece" ∈ ["hanging_piece", "knight_fork", "pin", "back_rank"] ∧
      "hanging_piece" ≠ TacticalPattern.discovered_attack.value ∧
      "hanging_piece" ≠ TacticalPattern.skewer.value ∧
      bucketsOf (flatFindings [c9game] [none]) "hanging_piece" ≠ [] ∧
      bucketsOf (flatFindings [c9game] [none]) "hanging_piece" =
        bucketsOf (flatFindings [c9game] [none]) "hanging_piece" ∧
      (∀ f ∈ bucketsOf (flatFindings [c9game] [none]) "hanging_piece",
        f.pattern = "hanging_piece") ∧
      ((bucketsOf (flatFindings [c9game] [none]) "hanging_piece").map
        (fun f => f.game_index)).Sorted (· ≤ ·)) :=
  ⟨by decide,
   C10_thm [c9game] [none] (bucketize (flatFindings [c9game] [none]))
     "hanging_piece" (bucketsOf (flatFindings [c9game] [none]) "hanging_piece")
     (detect_ok_of_len _ _ (by decide)) (by decide)⟩

end ChessCoach
